import Mathlib

/-!
Verification of the model-construction factory (`open_clip/factory.py`).

The factory resolves a named architecture to a configuration, instantiates the
network, optionally loads pretrained weights, casts precision, and builds image
preprocessing transforms.  The embedding below translates the factory functions
into Lean; everything the factory imports from outside the file (torch, the
model classes, the pretrained registry, the transform constructor) is an
abstract parameter collected in an `Env` structure.  Stateful effects that the
claims talk about (what is resolved, instantiated, loaded, moved, cast,
jit-wrapped) are recorded in an explicit event trace.
-/

/-- `str.replace('/', '-')` on a Python string: every slash becomes a dash.
This is the normalization applied on the first line of `create_model`. -/
def pyReplaceSlash (s : String) : String :=
  String.mk (s.data.map (fun c => if c = '/' then '-' else c))

/-- Python `str.startswith(pre)`: the characters of `pre` are a prefix of the
characters of `s`. -/
def pyStartsWith (s pre : String) : Bool :=
  List.isPrefixOf pre.data s.data

/-- Python `str.lower()` (on the ASCII names the factory compares). -/
def pyToLower (s : String) : String :=
  String.mk (s.data.map Char.toLower)

/-- Truthiness of an optional Python string: `None` and the empty string are
falsy, everything else is truthy. -/
def optStrTruthy : Option String → Bool
  | none => false
  | some s => !s.isEmpty

/-- Python `dict` update `d[k] = v`: an existing key keeps its position and
gets the new value, a new key is appended at the end. -/
def pyDictInsert {α : Type} (d : List (String × α)) (k : String) (v : α) :
    List (String × α) :=
  if d.any (fun kv => kv.1 == k) then
    d.map (fun kv => if kv.1 == k then (k, v) else kv)
  else d ++ [(k, v)]

/-- Python `dict(pairs)` built by successive insertion: first-occurrence order
of keys, last value wins. -/
def pyDictOf {α : Type} (l : List (String × α)) : List (String × α) :=
  l.foldl (fun d kv => pyDictInsert d kv.1 kv.2) []

/-- A loaded torch object, as far as the factory inspects it: either a dict
(with string keys) or a tensor (opaque, identified by a number). -/
inductive PyObj where
  | pdict (entries : List (String × PyObj))
  | tensor (id : Nat)

/-- Low-precision dtypes used by `convert_weights_to_lp`. -/
inductive LpDtype where
  | float16
  | bfloat16
deriving DecidableEq

/-- Python exceptions the factory can raise. -/
inductive Err where
  | runtimeError (msg : String)
  | assertionError (msg : String)
  | stopIteration
  | typeError (msg : String)
  | attributeError (msg : String)
deriving DecidableEq

/-- The `text_cfg` sub-dict of a model config: the keys the factory reads or
writes.  `none` means the key is absent. -/
structure TextCfg where
  hf_model_name : Option String
  hf_tokenizer_name : Option String
  hf_model_pretrained : Option Bool
deriving DecidableEq

/-- The `vision_cfg` sub-dict of a model config: the keys the factory reads or
writes.  `none` means the key is absent. -/
structure VisionCfg where
  timm_model_name : Option String
  model_name : Option String
  pretrained : Option String
  patch_dropout : Option Rat
  timm_model_pretrained : Option Bool
deriving DecidableEq

/-- A registered model config.  `_rescan_model_configs` only registers JSON
objects containing `embed_dim`, `vision_cfg` and `text_cfg`, so those three are
mandatory fields; `custom_text` and `quick_gelu` are optional keys. -/
structure ModelCfg where
  embed_dim : Nat
  vision_cfg : VisionCfg
  text_cfg : TextCfg
  custom_text : Option Bool
  quick_gelu : Option Bool
deriving DecidableEq

/-- The `visual` submodule of a model: its preprocessing metadata and its
parameter tensors. -/
structure VisualObj where
  image_size : Nat
  image_mean : Option (List Rat)
  image_std : Option (List Rat)
  params : List (String × PyObj)

/-- A constructed model object, as far as the factory touches it: the visual
tower, whether the model has a top-level `positional_embedding` attribute
(checked by `load_checkpoint`), and the parameters outside the visual tower. -/
structure ModelObj where
  visual : VisualObj
  has_positional_embedding : Bool
  rest_params : List (String × PyObj)

/-- An entry of the pretrained-checkpoint registry (`get_pretrained_cfg`):
optional normalization statistics. -/
structure PretrainedCfg where
  mean : Option (List Rat)
  std : Option (List Rat)
deriving DecidableEq

/-- The record of a call to `image_transform`: the arguments the factory
passes to the external transform constructor. -/
structure TransformRec where
  image_size : Nat
  is_train : Bool
  mean : Option (List Rat)
  std : Option (List Rat)
deriving DecidableEq

/-- Observable steps of `create_model`, in program order. -/
inductive Event where
  | resolveCfg (name : String)
  | loadOpenai (name : String)
  | instantiate (custom_text : Bool) (cfg : ModelCfg) (cast_dtype : Option LpDtype)
  | loadWeights (checkpoint_path : Option String) (which_tower : Option String) (tower_set : Bool)
  | toDevice (device : String)
  | castLp (dtype : LpDtype)
  | jitWrap
deriving DecidableEq

/-- The external world of the factory: the config registry populated by
`_rescan_model_configs`, and the functions the factory imports from torch, the
model module, the openai loader and the pretrained-checkpoint registry. -/
structure Env where
  configs : List (String × ModelCfg)
  get_cast_dtype : String → Option LpDtype
  load_openai_model : String → String → String → Bool → ModelObj
  construct : Bool → ModelCfg → Option LpDtype → ModelObj
  get_pretrained_cfg : String → String → Option PretrainedCfg
  list_pretrained_tags : String → List String
  download_pretrained : PretrainedCfg → String
  path_exists : String → Bool
  torch_load : String → PyObj
  convert_to_custom_text_state_dict : List (String × PyObj) → List (String × PyObj)
  resize_pos_embed : List (String × PyObj) → ModelObj → List (String × PyObj)
  applyVisualSd : List (String × PyObj) → List (String × PyObj) → Bool → List (String × PyObj)
  applyModelSd : ModelObj → List (String × PyObj) → Bool → ModelObj

/-- `get_model_config`: look the name up in the registry and return a (deep)
copy of the entry, `None` when absent.  In this pure embedding configs are
values, so the copy is the value itself; the aliasing consequences of
`deepcopy` are studied separately in the heap model below. -/
def get_model_config (env : Env) (model_name : String) : Option ModelCfg :=
  List.lookup model_name env.configs

/-- `list_models`: the keys of the registry. -/
def list_models (env : Env) : List String :=
  env.configs.map (fun kv => kv.1)

/-- A tokenizer as returned by `get_tokenizer`: either an `HFTokenizer`
constructed from a hub name, or the module-level `tokenize` function. -/
inductive Tokenizer where
  | hfTokenizer (name : String)
  | defaultTokenize
deriving DecidableEq

/-- `get_tokenizer`: subscripting the `None` returned by `get_model_config`
for an unregistered name raises a `TypeError`; otherwise the tokenizer is
selected by the presence of `hf_tokenizer_name` in the text config. -/
def get_tokenizer (env : Env) (model_name : String) : Except Err Tokenizer :=
  match get_model_config env model_name with
  | none => .error (.typeError "NoneType object is not subscriptable")
  | some config =>
    .ok (match config.text_cfg.hf_tokenizer_name with
      | some hf => .hfTokenizer hf
      | none => .defaultTokenize)

/-- The checkpoint-format selection at the top of `load_state_dict`: a dict
containing the key `state_dict` is unwrapped to that value, anything else is
used as the state dict itself. -/
def unwrapCheckpoint (c : PyObj) : PyObj :=
  match c with
  | .pdict es =>
    match List.lookup "state_dict" es with
    | some v => v
    | none => c
  | .tensor _ => c

/-- `load_state_dict` applied to the object `torch.load` returned: unwrap the
checkpoint format, then strip the first 7 characters (a `module.` wrapper) off
every key when the first key starts with `module`.  Taking the first key of an
empty dict raises `StopIteration`; taking `.items()` of a tensor fails. -/
def load_state_dict (checkpoint : PyObj) : Except Err (List (String × PyObj)) :=
  match unwrapCheckpoint checkpoint with
  | .tensor _ => .error (.attributeError "items")
  | .pdict [] => .error .stopIteration
  | .pdict (e0 :: rest) =>
    if pyStartsWith e0.1 "module" then
      .ok (pyDictOf ((e0 :: rest).map (fun kv => (kv.1.drop 7, kv.2))))
    else
      .ok (e0 :: rest)

/-- `load_checkpoint`'s observable outcome: the image tower was replaced by a
prebuilt tower, or a state dict was passed to `model.visual.load_state_dict`,
or a state dict was passed to the whole model.load_state_dict. -/
inductive LoadRes where
  | towerSet
  | visualLoad (sd : List (String × PyObj))
  | fullLoad (sd : List (String × PyObj))

/-- `load_checkpoint`: install a prebuilt image tower, or load a checkpoint,
converting old-format state dicts, resizing positional embeddings, and, when
`which_pretrained_image_tower` is set, loading only the `visual`-prefixed
entries (with their first 7 characters dropped) into the visual tower. -/
def load_checkpoint (env : Env) (model : ModelObj) (checkpoint_path : Option String)
    (strict : Bool) (which_pretrained_image_tower : Option String)
    (pretrained_image_tower : Option VisualObj) : Except Err (ModelObj × LoadRes) :=
  match pretrained_image_tower with
  | some tower => .ok ({ model with visual := tower }, .towerSet)
  | none =>
    match checkpoint_path with
    | none => .error (.attributeError "torch.load of None")
    | some p =>
      match load_state_dict (env.torch_load p) with
      | .error e => .error e
      | .ok sd0 =>
        -- detect old format and make compatible with new format
        let sd1 := if sd0.any (fun kv => kv.1 == "positional_embedding")
            && !model.has_positional_embedding
          then env.convert_to_custom_text_state_dict sd0 else sd0
        let sd2 := env.resize_pos_embed sd1 model
        match which_pretrained_image_tower with
        | some _ =>
          let stripped := (sd2.filter (fun kv => pyStartsWith kv.1 "visual")).map
            (fun kv => (kv.1.drop ("visual".length + 1), kv.2))
          let d := pyDictOf stripped
          .ok ({ model with visual :=
              { model.visual with params := env.applyVisualSd model.visual.params d strict } },
            .visualLoad d)
        | none =>
          .ok (env.applyModelSd model sd2 strict, .fullLoad sd2)

/-- `get_cfg_and_handle_error`: return the registered config, raising
`RuntimeError` with the not-found message otherwise. -/
def get_cfg_and_handle_error (env : Env) (model_name : String) : Except Err ModelCfg :=
  match get_model_config env model_name with
  | some model_cfg => .ok model_cfg
  | none => .error (.runtimeError ("Model config for " ++ model_name ++ " not found."))

/-- Lines 137-157 of the factory: the pretrained-image-tower selection inside
`load_and_prepare_cfg`.  Returns the possibly swapped model name, the config
after the vision overrides, and `which_pretrained_image_tower`, together with
the resolution events. -/
def prepareStep1 (env : Env) (model_name : String) (pretrained_image : Bool)
    (model_cfg0 : ModelCfg) : List Event × Except Err (String × ModelCfg × Option String) :=
  if pretrained_image then
    if model_cfg0.vision_cfg.timm_model_name.isSome then
      -- pretrained weight loading for timm models set via vision_cfg
      ([Event.resolveCfg model_name],
        .ok (model_name,
          { model_cfg0 with
            vision_cfg := { model_cfg0.vision_cfg with timm_model_pretrained := some true } },
          none))
    else
      match model_cfg0.vision_cfg.model_name with
      | some pretrained_image_model_name =>
        -- init image tower from a pre-defined and pre-trained model
        match get_cfg_and_handle_error env pretrained_image_model_name with
        | .error e => ([Event.resolveCfg model_name], .error e)
        | .ok pretrained_image_model_cfg =>
          ([Event.resolveCfg model_name, Event.resolveCfg pretrained_image_model_name],
            .ok (pretrained_image_model_name,
              { model_cfg0 with vision_cfg := pretrained_image_model_cfg.vision_cfg },
              some (model_cfg0.vision_cfg.pretrained.getD "openai")))
      | none =>
        ([Event.resolveCfg model_name],
          .error (.assertionError "Unintended logic triggered, please debug or implement this block."))
  else
    ([Event.resolveCfg model_name], .ok (model_name, model_cfg0, none))

/-- Lines 159-171 of the factory: the `quick_gelu` and `patch_dropout`
overrides, the `custom_text` pop and the `hf_model_pretrained` setting.
Returns the final config and the `custom_text` flag. -/
def prepareTail (cfg1 : ModelCfg) (force_quick_gelu : Bool) (force_patch_dropout : Option Rat)
    (force_custom_text : Bool) (pretrained_hf : Bool) : ModelCfg × Bool :=
  let cfg2 := if force_quick_gelu then { cfg1 with quick_gelu := some true } else cfg1
  let cfg3 := match force_patch_dropout with
    | some pd => { cfg2 with vision_cfg := { cfg2.vision_cfg with patch_dropout := some pd } }
    | none => cfg2
  let custom_text := cfg3.custom_text.getD false || force_custom_text
    || cfg3.text_cfg.hf_model_name.isSome
  let cfg4 := { cfg3 with custom_text := none }  -- the pop removed the key
  let cfg5 := if custom_text && cfg4.text_cfg.hf_model_name.isSome then
      { cfg4 with text_cfg := { cfg4.text_cfg with hf_model_pretrained := some pretrained_hf } }
    else cfg4
  (cfg5, custom_text)

/-- `load_and_prepare_cfg`: resolve the named config and apply the overrides.
Returns the possibly swapped model name, the prepared config, the
`custom_text` flag, and `which_pretrained_image_tower`, together with the
resolution events. -/
def load_and_prepare_cfg (env : Env) (model_name : String) (force_quick_gelu : Bool)
    (force_patch_dropout : Option Rat) (pretrained_image : Bool) (force_custom_text : Bool)
    (pretrained_hf : Bool) :
    List Event × Except Err (String × ModelCfg × Bool × Option String) :=
  match get_cfg_and_handle_error env model_name with
  | .error e => ([], .error e)
  | .ok model_cfg0 =>
    match prepareStep1 env model_name
        (pretrained_image || model_cfg0.vision_cfg.model_name.isSome
          || model_cfg0.vision_cfg.pretrained.isSome) model_cfg0 with
    | (evs, .error e) => (evs, .error e)
    | (evs, .ok (model_name2, cfg1, which_pretrained_image_tower)) =>
      let tl := prepareTail cfg1 force_quick_gelu force_patch_dropout force_custom_text
        pretrained_hf
      (evs, .ok (model_name2, tl.1, tl.2, which_pretrained_image_tower))

/-- Line 231 of the factory: `pretrained = which_pretrained_image_tower if
which_pretrained_image_tower is not None else pretrained`. -/
def pretrainedAfterTower (which_pretrained_image_tower pretrained : Option String) :
    Option String :=
  match which_pretrained_image_tower with
  | some w => some w
  | none => pretrained

/-- `which_pretrained_image_tower is not None and which_pretrained_image_tower.lower() == 'openai'`. -/
def extractOpenaiTower : Option String → Bool
  | some w => pyToLower w == "openai"
  | none => false

/-- `pretrained and pretrained.lower() == 'openai' and not extract_openai_image_tower`. -/
def isPureOpenai (pretrained : Option String) (extract : Bool) : Bool :=
  optStrTruthy pretrained && pyToLower (pretrained.getD "") == "openai" && !extract

/-- The `pretrained_cfg` selected inside `create_model` when the pretrained
tag is truthy and the OpenAI loader is not involved. -/
def resolvePretrainedCfg (env : Env) (model_name : String) (pretrained2 : Option String)
    (process_openai : Bool) : Option PretrainedCfg :=
  if optStrTruthy pretrained2 && !process_openai then
    env.get_pretrained_cfg model_name (pretrained2.getD "")
  else none

/-- The `checkpoint_path` selected inside `create_model`: the downloaded path
of a registered pretrained tag, else the tag itself when it is an existing
filesystem path. -/
def resolveCheckpointPath (env : Env) (model_name : String) (pretrained2 : Option String)
    (process_openai : Bool) : Option String :=
  if optStrTruthy pretrained2 && !process_openai then
    match env.get_pretrained_cfg model_name (pretrained2.getD "") with
    | some cfg => some (env.download_pretrained cfg)
    | none =>
      if env.path_exists (pretrained2.getD "") then pretrained2 else none
  else none

/-- Python `str` of a list of strings, as interpolated into the
available-tags error message. -/
def pyStrOfList (xs : List String) : String :=
  "[" ++ String.intercalate ", " (xs.map (fun s => "\x27" ++ s ++ "\x27")) ++ "]"

/-- The message of the `RuntimeError` raised when a truthy pretrained tag is
neither registered nor an existing checkpoint path. -/
def pretrainedNotFoundMsg (pretrained : String) (model_name : String) (tags : List String) : String :=
  "Pretrained weights (" ++ pretrained ++ ") not found for model " ++ model_name ++ "."
    ++ "Available pretrained tags (" ++ pyStrOfList tags ++ "."

/-- The low-precision cast performed after the move to the device:
`convert_weights_to_lp` runs exactly for precisions `fp16` and `bf16`. -/
def castEvents (precision : String) : List Event :=
  if precision == "fp16" || precision == "bf16" then
    [Event.castLp (if precision == "bf16" then LpDtype.bfloat16 else LpDtype.float16)]
  else []

/-- Python `x or y` on optional float tuples: `None` and the empty tuple are
falsy and fall through to `y`. -/
def pyOrList (x y : Option (List Rat)) : Option (List Rat) :=
  match x with
  | some l => if l.isEmpty then y else some l
  | none => y

/-- The OpenAI dataset normalization mean imported from `constants`.  Its
exact value never matters to the factory logic, only that it is a fixed
non-empty (hence truthy) tuple. -/
def OPENAI_DATASET_MEAN : List Rat := [48145466/100000000, 4578275/10000000, 40821073/100000000]

/-- The OpenAI dataset normalization standard deviation from `constants`. -/
def OPENAI_DATASET_STD : List Rat := [26862954/100000000, 26130258/100000000, 27577711/100000000]

/-- `create_model`: normalize the name, resolve and prepare the config,
instantiate, load weights, move, cast, set the preprocessing metadata and
jit-wrap, in source order.  The first component is the event trace up to the
point where the call returned or raised. -/
def createModel (env : Env) (model_name : String) (pretrained : Option String)
    (precision : String) (device : String) (jit : Bool) (force_quick_gelu : Bool)
    (force_custom_text : Bool) (force_patch_dropout : Option Rat) (pretrained_image : Bool)
    (pretrained_hf : Bool) : List Event × Except Err ModelObj :=
  let model_name := pyReplaceSlash model_name  -- for callers using old naming with / in ViT names
  let cast_dtype := env.get_cast_dtype precision
  match load_and_prepare_cfg env model_name force_quick_gelu force_patch_dropout
      pretrained_image force_custom_text pretrained_hf with
  | (pes, .error e) => (pes, .error e)
  | (pes, .ok (model_name2, model_cfg, custom_text, which_pretrained_image_tower)) =>
    let extract := extractOpenaiTower which_pretrained_image_tower
    let pure_openai := isPureOpenai pretrained extract
    let process_openai := extract || pure_openai
    let openai_events := if process_openai then [Event.loadOpenai model_name2] else []
    let openai_model := env.load_openai_model model_name2 precision device jit
    let pretrained_image_tower := if extract then some openai_model.visual else none
    if pure_openai then
      (pes ++ openai_events, .ok openai_model)
    else
      let model0 := env.construct custom_text model_cfg cast_dtype
      let pretrained2 := pretrainedAfterTower which_pretrained_image_tower pretrained
      let checkpoint_path := resolveCheckpointPath env model_name2 pretrained2 process_openai
      let pretrained_cfg := resolvePretrainedCfg env model_name2 pretrained2 process_openai
      let base := pes ++ openai_events ++ [Event.instantiate custom_text model_cfg cast_dtype]
      let loadStep : List Event × Except Err ModelObj :=
        if checkpoint_path.isSome || extract then
          match load_checkpoint env model0 checkpoint_path true
              which_pretrained_image_tower pretrained_image_tower with
          | .error e => ([], .error e)
          | .ok (m1, _) =>
            ([Event.loadWeights checkpoint_path which_pretrained_image_tower
                pretrained_image_tower.isSome], .ok m1)
        else if optStrTruthy pretrained2 then
          ([], .error (.runtimeError (pretrainedNotFoundMsg (pretrained2.getD "") model_name2
            (env.list_pretrained_tags model_name2))))
        else ([], .ok model0)
      match loadStep with
      | (levs, .error e) => (base ++ levs, .error e)
      | (levs, .ok m1) =>
        -- set image mean / std metadata from pretrained_cfg if available, or use default
        let m2 := { m1 with visual := { m1.visual with
          image_mean := pyOrList (pretrained_cfg.bind (fun c => c.mean)) (some OPENAI_DATASET_MEAN),
          image_std := pyOrList (pretrained_cfg.bind (fun c => c.std)) (some OPENAI_DATASET_STD) } }
        (base ++ levs ++ [Event.toDevice device] ++ castEvents precision
          ++ (if jit then [Event.jitWrap] else []), .ok m2)

/-- The record of a call to the external `image_transform`. -/
def image_transform (image_size : Nat) (is_train : Bool) (mean : Option (List Rat))
    (std : Option (List Rat)) : TransformRec :=
  { image_size := image_size, is_train := is_train, mean := mean, std := std }

/-- `create_model_and_transforms`: build the model, then a training and a
validation transform from its visual metadata and the caller-supplied
mean and std. -/
def createModelAndTransforms (env : Env) (model_name : String) (pretrained : Option String)
    (precision : String) (device : String) (jit : Bool) (force_quick_gelu : Bool)
    (force_custom_text : Bool) (force_patch_dropout : Option Rat) (pretrained_image : Bool)
    (pretrained_hf : Bool) (image_mean : Option (List Rat)) (image_std : Option (List Rat)) :
    Except Err (ModelObj × TransformRec × TransformRec) :=
  match (createModel env model_name pretrained precision device jit force_quick_gelu
      force_custom_text force_patch_dropout pretrained_image pretrained_hf).2 with
  | .error e => .error e
  | .ok model =>
    let image_mean := pyOrList image_mean model.visual.image_mean
    let image_std := pyOrList image_std model.visual.image_std
    .ok (model,
      image_transform model.visual.image_size true image_mean image_std,
      image_transform model.visual.image_size false image_mean image_std)

/-- `is_pretrained_cfg` from the pretrained-checkpoint registry: the tag is
registered for the model. -/
def is_pretrained_cfg (env : Env) (model_name : String) (tag : String) : Bool :=
  (env.get_pretrained_cfg model_name tag).isSome

/-- Result of `create_model_from_pretrained`: the model alone, or the model
with the validation transform. -/
inductive FromPretrainedRes where
  | modelOnly (m : ModelObj)
  | withTransform (m : ModelObj) (t : TransformRec)

/-- `create_model_from_pretrained`: reject an unknown pretrained tag before
building anything, then build the model and optionally the validation
transform.  The first component is the trace of the underlying
`create_model` call (empty when the up-front rejection fires). -/
def createModelFromPretrained (env : Env) (model_name : String) (pretrained : String)
    (precision : String) (device : String) (jit : Bool) (force_quick_gelu : Bool)
    (force_custom_text : Bool) (return_transform : Bool) (image_mean : Option (List Rat))
    (image_std : Option (List Rat)) : List Event × Except Err FromPretrainedRes :=
  if !is_pretrained_cfg env model_name pretrained && !env.path_exists pretrained then
    ([], .error (.runtimeError (pretrained ++ " is not a valid pretrained cfg or checkpoint for "
      ++ model_name ++ ". Use open_clip.list_pretrained() to find one.")))
  else
    match createModel env model_name (some pretrained) precision device jit force_quick_gelu
        force_custom_text none false true with
    | (evs, .error e) => (evs, .error e)
    | (evs, .ok model) =>
      if !return_transform then (evs, .ok (.modelOnly model))
      else
        let image_mean := pyOrList image_mean model.visual.image_mean
        let image_std := pyOrList image_std model.visual.image_std
        (evs, .ok (.withTransform model
          (image_transform model.visual.image_size false image_mean image_std)))

/-!
## Heap model for `get_model_config`'s `deepcopy`

`get_model_config` returns `deepcopy(_MODEL_CONFIGS[model_name])`, and
`load_and_prepare_cfg` then mutates the returned dict in place (it pops
`custom_text`, assigns `quick_gelu`, and writes into the nested `vision_cfg`
and `text_cfg` dicts).  To reason about this aliasing we model Python dicts as
heap cells: a dict lives at an address, its entries are primitives or
references to other dicts.  `deepcopy` recursively copies cells to fresh
addresses, so mutations of the copy cannot change anything the registry can
reach.
-/

/-- A primitive JSON value inside a config dict. -/
inductive JPrim where
  | jstr (s : String)
  | jnum (q : Rat)
  | jbool (b : Bool)
  | jnull
deriving DecidableEq

/-- An entry value of a heap dict: a primitive leaf, or a reference to
another dict cell. -/
inductive EntryV where
  | leaf (p : JPrim)
  | ref (a : Nat)
deriving DecidableEq

/-- A Python dict object: ordered key/value entries. -/
abbrev HDict := List (String × EntryV)

/-- A heap of dict objects, addressed by `Nat`. -/
abbrev Heap := List (Nat × HDict)

/-- Look up the dict stored at an address. -/
def lookupH (h : Heap) (a : Nat) : Option HDict :=
  match List.find? (fun p => p.1 == a) h with
  | some p => some p.2
  | none => none

/-- The largest address in use (0 for the empty heap). -/
def maxAddr (h : Heap) : Nat :=
  List.foldr (fun (p : Nat × HDict) m => max p.1 m) 0 h

/-- The next fresh address. -/
def freshAddr (h : Heap) : Nat := maxAddr h + 1

/-- The addresses referenced directly by a dict's entries. -/
def dictRefs (d : HDict) : List Nat :=
  d.filterMap (fun kv => match kv.2 with | .ref a => some a | .leaf _ => none)

/-- Copy the entries of a dict left to right, threading the heap through the
supplied entry-copier (the recursive step of `deepcopy`). -/
def dcDictAux (f : Heap → EntryV → Heap × Option EntryV) : Heap → HDict → Heap × Option HDict
  | h, [] => (h, some [])
  | h, kv :: rest =>
    match f h kv.2 with
    | (h1, none) => (h1, none)
    | (h1, some v2) =>
      match dcDictAux f h1 rest with
      | (h2, none) => (h2, none)
      | (h2, some r2) => (h2, some ((kv.1, v2) :: r2))

/-- `copy.deepcopy` on an entry value, with a fuel bound on the nesting depth
(Python configs are finite acyclic JSON, so enough fuel always exists).
Copying a reference allocates a fresh cell holding a deep copy of the
referenced dict; `none` signals fuel exhaustion or a dangling reference. -/
def dcEntry : Nat → Heap → EntryV → Heap × Option EntryV
  | _, h, .leaf p => (h, some (.leaf p))
  | 0, h, .ref _ => (h, none)
  | fuel + 1, h, .ref a =>
    match lookupH h a with
    | none => (h, none)
    | some d =>
      match dcDictAux (dcEntry fuel) h d with
      | (h1, none) => (h1, none)
      | (h1, some d2) =>
        let na := freshAddr h1
        ((na, d2) :: h1, some (.ref na))

/-- Deep copy of the entries of a dict at a given fuel. -/
def dcDict (fuel : Nat) : Heap → HDict → Heap × Option HDict :=
  dcDictAux (dcEntry fuel)

/-- `deepcopy` of the dict at an address: the extended heap and the address
of the copy. -/
def deepcopyAddr (fuel : Nat) (h : Heap) (a : Nat) : Heap × Option Nat :=
  match dcEntry (fuel + 1) h (.ref a) with
  | (h1, some (.ref b)) => (h1, some b)
  | (h1, _) => (h1, none)

/-- The registry state: the heap of config objects and the name-to-address
map `_MODEL_CONFIGS`. -/
structure CfgRegistry where
  heap : Heap
  configs : List (String × Nat)

/-- `get_model_config` in the heap model: deep-copy the registered config
object onto the heap and return the address of the copy. -/
def get_model_config_h (fuel : Nat) (st : CfgRegistry) (model_name : String) :
    Heap × Option Nat :=
  match List.lookup model_name st.configs with
  | some a => deepcopyAddr fuel st.heap a
  | none => (st.heap, none)

/-- A single in-place dict mutation, as performed by `load_and_prepare_cfg` on
the copied config: `d[k] = v` or `d.pop(k, default)`. -/
inductive MutOp where
  | setKey (a : Nat) (k : String) (v : EntryV)
  | popKey (a : Nat) (k : String)
deriving DecidableEq

/-- The address a mutation writes to. -/
def mutAddr : MutOp → Nat
  | .setKey a _ _ => a
  | .popKey a _ => a

/-- Apply a mutation to the heap. -/
def applyMut (h : Heap) : MutOp → Heap
  | .setKey a k v => h.map (fun p => if p.1 == a then (p.1, pyDictInsertE p.2 k v) else p)
  | .popKey a k => h.map (fun p => if p.1 == a then (p.1, p.2.filter (fun kv => kv.1 != k)) else p)
where pyDictInsertE (d : HDict) (k : String) (v : EntryV) : HDict :=
  if d.any (fun kv => kv.1 == k) then
    d.map (fun kv => if kv.1 == k then (k, v) else kv)
  else d ++ [(k, v)]

/-- Apply a sequence of mutations in order. -/
def applyMuts (h : Heap) (ms : List MutOp) : Heap :=
  ms.foldl applyMut h

/-- The pure JSON tree read off a heap dict. -/
inductive JTree where
  | leaf (p : JPrim)
  | node (entries : List (String × JTree))

/-- Read all entries of a dict as trees through the supplied entry-reader. -/
def readDictAux (f : EntryV → Option JTree) : HDict → Option (List (String × JTree))
  | [] => some []
  | kv :: rest =>
    match f kv.2 with
    | none => none
    | some t =>
      match readDictAux f rest with
      | none => none
      | some ts => some ((kv.1, t) :: ts)

/-- Read the tree value of an entry, following references with a fuel bound;
`none` on fuel exhaustion or a dangling reference. -/
def readEntry : Nat → Heap → EntryV → Option JTree
  | _, _, .leaf p => some (.leaf p)
  | 0, _, .ref _ => none
  | fuel + 1, h, .ref a =>
    match lookupH h a with
    | none => none
    | some d =>
      match readDictAux (readEntry fuel h) d with
      | none => none
      | some ts => some (.node ts)

/-- Read all entries of a dict as trees at a given fuel. -/
def readDict (fuel : Nat) (h : Heap) : HDict → Option (List (String × JTree)) :=
  readDictAux (readEntry fuel h)

/-- Read the tree of the dict at an address. -/
def readTree (fuel : Nat) (h : Heap) (a : Nat) : Option JTree :=
  readEntry (fuel + 1) h (.ref a)

/-- The addresses reachable from an address in a bounded number of steps. -/
def reachAddrs : Nat → Heap → Nat → List Nat
  | 0, _, a => [a]
  | fuel + 1, h, a =>
    a :: (match lookupH h a with
      | none => []
      | some d => (dictRefs d).flatMap (reachAddrs fuel h))

/-- Well-formedness of a heap: addresses are distinct and every reference
points to an existing cell. -/
def heapWF (h : Heap) : Prop :=
  (h.map (fun p => p.1)).Nodup ∧
    ∀ p ∈ h, ∀ a ∈ dictRefs p.2, (lookupH h a).isSome

/-- The addresses referenced by a single entry value. -/
def entryRefs : EntryV → List Nat
  | .leaf _ => []
  | .ref a => [a]

/-- The references a mutation writes into the heap (only `setKey` of a
reference value writes one). -/
def mutRefs : MutOp → List Nat
  | .setKey _ _ (.ref r) => [r]
  | .setKey _ _ (.leaf _) => []
  | .popKey _ _ => []

/-- All references stored in the heap stay at or below `maxAddr`. -/
def heapRefsBounded (h : Heap) : Prop :=
  ∀ p ∈ h, ∀ rb ∈ dictRefs p.2, rb ≤ maxAddr h

/-- The deep-copy extension relation: `h2` is `h` with freshly allocated
cells prepended, every new cell has a fresh address and references only fresh
in-range addresses. -/
def extOK (h h2 : Heap) : Prop :=
  ∃ ext, h2 = ext ++ h ∧
    ∀ p ∈ ext, maxAddr h < p.1 ∧ ∀ rb ∈ dictRefs p.2, maxAddr h < rb ∧ rb ≤ maxAddr h2

/-!
## Concrete instances used by the witnesses
-/

/-- A minimal registered config: no timm tower, no pretrained image tower, no
HF text tower. -/
def cfgA : ModelCfg where
  embed_dim := 512
  vision_cfg :=
    { timm_model_name := none
      model_name := none
      pretrained := none
      patch_dropout := none
      timm_model_pretrained := none }
  text_cfg :=
    { hf_model_name := none
      hf_tokenizer_name := none
      hf_model_pretrained := none }
  custom_text := none
  quick_gelu := none

/-- A concrete visual tower. -/
def visW : VisualObj :=
  { image_size := 224, image_mean := none, image_std := none,
    params := [("conv1.weight", .tensor 1)] }

/-- A concrete model object. -/
def modelW : ModelObj :=
  { visual := visW, has_positional_embedding := true,
    rest_params := [("logit_scale", .tensor 9)] }

/-- A concrete environment: one registered config, no pretrained tags, no
existing checkpoint paths, identity state-dict plumbing. -/
def envW : Env :=
  { configs := [("vit-b-32", cfgA)],
    get_cast_dtype := fun _ => none,
    load_openai_model := fun _ _ _ _ => modelW,
    construct := fun _ _ _ => modelW,
    get_pretrained_cfg := fun _ _ => none,
    list_pretrained_tags := fun _ => [],
    download_pretrained := fun _ => "ckpt.pt",
    path_exists := fun _ => false,
    torch_load := fun _ => .pdict [("visual.proj", .tensor 3), ("text.w", .tensor 4)],
    convert_to_custom_text_state_dict := fun sd => sd,
    resize_pos_embed := fun sd _ => sd,
    applyVisualSd := fun _ sd _ => sd,
    applyModelSd := fun m _ _ => m }

/-- `envW` with a checkpoint whose dict has a key that starts with `visual`
but not with `visual.`. -/
def envCkpt : Env :=
  { envW with torch_load := fun _ => .pdict [("visualize", .tensor 5), ("text.w", .tensor 6)] }

/-- A concrete config heap: the registered config at address 1 references its
`vision_cfg` (address 2) and `text_cfg` (address 3). -/
def heapW : Heap :=
  [(1, [("embed_dim", .leaf (.jnum 512)), ("vision_cfg", .ref 2), ("text_cfg", .ref 3),
     ("custom_text", .leaf (.jbool true))]),
   (2, [("image_size", .leaf (.jnum 224))]),
   (3, [("context_length", .leaf (.jnum 77))])]

/-- The registry state over `heapW`. -/
def regW : CfgRegistry := { heap := heapW, configs := [("vit-b-32", 1)] }

/-- The heap after `get_model_config` deep-copied the config at address 1:
three fresh cells 4, 5, 6 prepended to `heapW`. -/
def heap2W : Heap :=
  [(6, [("embed_dim", .leaf (.jnum 512)), ("vision_cfg", .ref 4), ("text_cfg", .ref 5),
     ("custom_text", .leaf (.jbool true))]),
   (5, [("context_length", .leaf (.jnum 77))]),
   (4, [("image_size", .leaf (.jnum 224))])] ++ heapW

/-- The mutations `load_and_prepare_cfg` performs on the copied config: the
`custom_text` pop and dict writes at the copy root (address 6) and inside its
copied `vision_cfg` (address 4). -/
def mutsW : List MutOp :=
  [.popKey 6 "custom_text",
   .setKey 6 "quick_gelu" (.leaf (.jbool true)),
   .setKey 4 "patch_dropout" (.leaf (.jnum 0))]

/-- The model `create_model` returns on `envW` for the plain `fp32` path:
the constructed model with the default preprocessing statistics attached. -/
def modelWFin : ModelObj :=
  { modelW with visual := { visW with image_mean := some OPENAI_DATASET_MEAN, image_std := some OPENAI_DATASET_STD } }

/-- `envW` with one registered pretrained tag (`laion`) whose checkpoint
downloads to `ckpt.pt`. -/
def envLoad : Env :=
  { envW with get_pretrained_cfg :=
      fun _ tag => if tag == "laion" then some { mean := none, std := none } else none }

/-!
## Theorems
-/

theorem pyReplaceSlash_idem (s : String) :
    pyReplaceSlash (pyReplaceSlash s) = pyReplaceSlash s := by
  show String.mk _ = String.mk _
  simp only [pyReplaceSlash, List.map_map]
  congr 1
  apply List.map_congr_left
  intro c _
  by_cases h : c = '/' <;> simp [Function.comp, h]

/-- C9: `create_model` normalizes its `model_name` by replacing every slash
with a dash before any lookup, so calling it with the raw or the normalized
name behaves identically, and the normalization is idempotent. -/
theorem create_model_name_normalization (env : Env) (model_name : String)
    (pretrained : Option String) (precision device : String)
    (jit force_quick_gelu force_custom_text : Bool) (force_patch_dropout : Option Rat)
    (pretrained_image pretrained_hf : Bool) :
    createModel env model_name pretrained precision device jit force_quick_gelu
        force_custom_text force_patch_dropout pretrained_image pretrained_hf =
      createModel env (pyReplaceSlash model_name) pretrained precision device jit
        force_quick_gelu force_custom_text force_patch_dropout pretrained_image pretrained_hf ∧
    pyReplaceSlash (pyReplaceSlash model_name) = pyReplaceSlash model_name := by
  refine ⟨?_, pyReplaceSlash_idem model_name⟩
  unfold createModel
  rw [pyReplaceSlash_idem]

/-- C1: when the normalized model name is not a key of the config registry,
`create_model` raises `RuntimeError` with the not-found message (via
`get_cfg_and_handle_error`), with an empty event trace: no model object is
constructed or returned. -/
theorem create_model_config_not_found (env : Env) (model_name : String)
    (pretrained : Option String) (precision device : String)
    (jit force_quick_gelu force_custom_text : Bool) (force_patch_dropout : Option Rat)
    (pretrained_image pretrained_hf : Bool)
    (h : get_model_config env (pyReplaceSlash model_name) = none) :
    createModel env model_name pretrained precision device jit force_quick_gelu
        force_custom_text force_patch_dropout pretrained_image pretrained_hf =
      ([], .error (.runtimeError
        ("Model config for " ++ pyReplaceSlash model_name ++ " not found."))) := by
  have hc : get_cfg_and_handle_error env (pyReplaceSlash model_name) =
      .error (.runtimeError ("Model config for " ++ pyReplaceSlash model_name ++ " not found.")) := by
    simp [get_cfg_and_handle_error, h]
  have hp : load_and_prepare_cfg env (pyReplaceSlash model_name) force_quick_gelu
      force_patch_dropout pretrained_image force_custom_text pretrained_hf =
      ([], .error (.runtimeError ("Model config for " ++ pyReplaceSlash model_name ++ " not found."))) := by
    simp [load_and_prepare_cfg, hc]
  simp [createModel, hp]

/-- Witness for C1: a concrete unregistered name (with a slash to be
normalized) on the concrete environment. -/
theorem create_model_config_not_found_case :
    get_model_config envW (pyReplaceSlash "bad/name") = none ∧
    createModel envW "bad/name" none "fp32" "cpu" false false false none false true =
      ([], .error (.runtimeError "Model config for bad-name not found.")) := by
  refine ⟨rfl, ?_⟩
  exact create_model_config_not_found envW "bad/name" none "fp32" "cpu" false false false
    none false true rfl

/-- C4 (amended): `load_state_dict` uses `checkpoint[&quot;state_dict&quot;]`
when the loaded object is a dict containing that key and the loaded object
itself otherwise (`unwrapCheckpoint`); when the resulting dict is non-empty
and its first key starts with `module`, every key has its first 7 characters
removed.  (The unamended claim fails on the empty dict, where the code raises
`StopIteration`; see the counterexample.) -/
theorem load_state_dict_formats (c : PyObj) (e0 : String × PyObj)
    (rest : List (String × PyObj)) (h : unwrapCheckpoint c = .pdict (e0 :: rest)) :
    load_state_dict c = .ok (if pyStartsWith e0.1 "module"
      then pyDictOf ((e0 :: rest).map (fun kv => (kv.1.drop 7, kv.2)))
      else e0 :: rest) := by
  unfold load_state_dict
  rw [h]
  by_cases hs : pyStartsWith e0.1 "module" <;> simp [hs]

/-- Witness for C4: a checkpoint wrapped in a `state_dict` key whose inner
keys carry a `module.` wrapper. -/
theorem load_state_dict_formats_case :
    unwrapCheckpoint (PyObj.pdict [("state_dict", PyObj.pdict [("module.w", PyObj.tensor 1)])]) =
      PyObj.pdict [("module.w", PyObj.tensor 1)] ∧
    load_state_dict (PyObj.pdict [("state_dict", PyObj.pdict [("module.w", PyObj.tensor 1)])]) =
      .ok [("w", PyObj.tensor 1)] := by
  refine ⟨rfl, ?_⟩
  exact load_state_dict_formats
    (PyObj.pdict [("state_dict", PyObj.pdict [("module.w", PyObj.tensor 1)])])
    ("module.w", PyObj.tensor 1) [] rfl

/-- Counterexample for C4 as stated: on the empty dict checkpoint the code
raises `StopIteration` (from `next(iter(state_dict.items()))`) instead of
returning the dict. -/
theorem load_state_dict_empty_counterexample :
    load_state_dict (PyObj.pdict []) = .error .stopIteration ∧
    (Except.error Err.stopIteration : Except Err (List (String × PyObj))) ≠ .ok [] :=
  ⟨rfl, by simp⟩

/-- C10: for an unregistered name `get_model_config` returns `None` and
`get_tokenizer` raises (subscripting `None`); for a registered name the
failure branch is unreachable and the tokenizer is `HFTokenizer` exactly when
the text config carries `hf_tokenizer_name`, the default `tokenize`
otherwise. -/
theorem get_tokenizer_registry (env : Env) (model_name : String) :
    (get_model_config env model_name = none →
      get_tokenizer env model_name = .error (.typeError "NoneType object is not subscriptable")) ∧
    (∀ cfg, get_model_config env model_name = some cfg →
      get_tokenizer env model_name = .ok (match cfg.text_cfg.hf_tokenizer_name with
        | some hf => .hfTokenizer hf
        | none => .defaultTokenize)) := by
  constructor
  · intro h
    simp [get_tokenizer, h]
  · intro cfg h
    simp [get_tokenizer, h]

/-- Witness for C10: both branches on the concrete environment. -/
theorem get_tokenizer_registry_case :
    (get_model_config envW "missing" = none ∧
      get_tokenizer envW "missing" = .error (.typeError "NoneType object is not subscriptable")) ∧
    (get_model_config envW "vit-b-32" = some cfgA ∧
      get_tokenizer envW "vit-b-32" = .ok .defaultTokenize) := by
  refine ⟨⟨rfl, (get_tokenizer_registry envW "missing").1 rfl⟩, rfl, ?_⟩
  exact (get_tokenizer_registry envW "vit-b-32").2 cfgA rfl

/-- C3 (amended): with `which_pretrained_image_tower` set and no prebuilt
tower, `load_checkpoint` passes to `model.visual.load_state_dict` exactly the
entries of the prepared state dict whose key starts with `visual`, each key
with its first 7 characters removed (for keys beginning `visual.` this
removes that prefix), and everything outside `model.visual.params` is left
unchanged. -/
theorem load_checkpoint_image_tower_load (env : Env) (model : ModelObj)
    (checkpoint_path : String) (strict : Bool) (w : String)
    (sd0 sd2 : List (String × PyObj))
    (hsd : load_state_dict (env.torch_load checkpoint_path) = .ok sd0)
    (hsd2 : env.resize_pos_embed
      (if sd0.any (fun kv => kv.1 == "positional_embedding") && !model.has_positional_embedding
        then env.convert_to_custom_text_state_dict sd0 else sd0) model = sd2) :
    ∃ m1, load_checkpoint env model (some checkpoint_path) strict (some w) none =
        .ok (m1, .visualLoad (pyDictOf ((sd2.filter (fun kv => pyStartsWith kv.1 "visual")).map
          (fun kv => (kv.1.drop 7, kv.2))))) ∧
      m1.rest_params = model.rest_params ∧
      m1.has_positional_embedding = model.has_positional_embedding ∧
      m1.visual.image_size = model.visual.image_size ∧
      m1.visual.image_mean = model.visual.image_mean ∧
      m1.visual.image_std = model.visual.image_std ∧
      m1.visual.params = env.applyVisualSd model.visual.params
        (pyDictOf ((sd2.filter (fun kv => pyStartsWith kv.1 "visual")).map
          (fun kv => (kv.1.drop 7, kv.2)))) strict := by
  subst hsd2
  simp only [load_checkpoint, hsd]
  exact ⟨_, rfl, rfl, rfl, rfl, rfl, rfl, rfl⟩

/-- Witness for C3: a checkpoint holding one `visual.`-prefixed and one text
entry; only the former, stripped, reaches the visual tower, and the
non-visual parameters survive. -/
theorem load_checkpoint_image_tower_load_case :
    load_state_dict (envW.torch_load "ckpt.pt") =
      .ok [("visual.proj", PyObj.tensor 3), ("text.w", PyObj.tensor 4)] ∧
    (∃ m1, load_checkpoint envW modelW (some "ckpt.pt") true (some "openai") none =
        .ok (m1, .visualLoad [("proj", PyObj.tensor 3)]) ∧
      m1.rest_params = modelW.rest_params ∧
      m1.has_positional_embedding = modelW.has_positional_embedding ∧
      m1.visual.image_size = modelW.visual.image_size ∧
      m1.visual.image_mean = modelW.visual.image_mean ∧
      m1.visual.image_std = modelW.visual.image_std ∧
      m1.visual.params = [("proj", PyObj.tensor 3)]) := by
  refine ⟨rfl, ?_⟩
  exact load_checkpoint_image_tower_load envW modelW "ckpt.pt" true "openai"
    [("visual.proj", PyObj.tensor 3), ("text.w", PyObj.tensor 4)]
    [("visual.proj", PyObj.tensor 3), ("text.w", PyObj.tensor 4)] rfl rfl

/-- Counterexample for C3 as stated: the filter keeps every key that starts
with `visual`, not only those starting with `visual.`, and always drops 7
characters.  The key `visualize` has no `visual.` prefix to remove, yet it is
selected and loaded as `ze`. -/
theorem load_checkpoint_visual_counterexample :
    load_checkpoint envCkpt modelW (some "p") true (some "tag") none =
      .ok ({ modelW with visual := { visW with params := [("ze", PyObj.tensor 5)] } },
        .visualLoad [("ze", PyObj.tensor 5)]) ∧
    LoadRes.visualLoad [("ze", PyObj.tensor 5)] ≠
      LoadRes.visualLoad [("visualize", PyObj.tensor 5)] := by
  refine ⟨rfl, ?_⟩
  simp

/-- C7 (amended): on success `create_model_and_transforms` returns the model
and two transforms built from the same `model.visual.image_size` and the same
mean and std — the caller-supplied values when truthy (non-`None` and
non-empty), otherwise the model's `visual.image_mean` / `visual.image_std` —
with `is_train` `True` for the first and `False` for the second. -/
theorem create_model_and_transforms_spec (env : Env) (model_name : String)
    (pretrained : Option String) (precision device : String)
    (jit force_quick_gelu force_custom_text : Bool) (force_patch_dropout : Option Rat)
    (pretrained_image pretrained_hf : Bool) (image_mean image_std : Option (List Rat))
    (m : ModelObj) (t1 t2 : TransformRec)
    (h : createModelAndTransforms env model_name pretrained precision device jit
      force_quick_gelu force_custom_text force_patch_dropout pretrained_image pretrained_hf
      image_mean image_std = .ok (m, t1, t2)) :
    (createModel env model_name pretrained precision device jit force_quick_gelu
        force_custom_text force_patch_dropout pretrained_image pretrained_hf).2 = .ok m ∧
    t1 = image_transform m.visual.image_size true (pyOrList image_mean m.visual.image_mean)
      (pyOrList image_std m.visual.image_std) ∧
    t2 = image_transform m.visual.image_size false (pyOrList image_mean m.visual.image_mean)
      (pyOrList image_std m.visual.image_std) := by
  unfold createModelAndTransforms at h
  cases hcm : (createModel env model_name pretrained precision device jit force_quick_gelu
      force_custom_text force_patch_dropout pretrained_image pretrained_hf).2 with
  | error e =>
    rw [hcm] at h
    exact absurd h (by simp)
  | ok model =>
    rw [hcm] at h
    simp only [Except.ok.injEq, Prod.mk.injEq] at h
    obtain ⟨rfl, rfl, rfl⟩ := h
    exact ⟨rfl, rfl, rfl⟩

/-- Witness for C7: a successful build on the concrete environment with no
caller-supplied statistics. -/
theorem create_model_and_transforms_spec_case :
    createModelAndTransforms envW "vit-b-32" none "fp32" "cpu" false false false none false true
        none none =
      .ok (modelWFin,
        image_transform 224 true (some OPENAI_DATASET_MEAN) (some OPENAI_DATASET_STD),
        image_transform 224 false (some OPENAI_DATASET_MEAN) (some OPENAI_DATASET_STD)) ∧
    ((createModel envW "vit-b-32" none "fp32" "cpu" false false false none false true).2 =
        .ok modelWFin ∧
      image_transform 224 true (some OPENAI_DATASET_MEAN) (some OPENAI_DATASET_STD) =
        image_transform 224 true (some OPENAI_DATASET_MEAN) (some OPENAI_DATASET_STD) ∧
      image_transform 224 false (some OPENAI_DATASET_MEAN) (some OPENAI_DATASET_STD) =
        image_transform 224 false (some OPENAI_DATASET_MEAN) (some OPENAI_DATASET_STD)) := by
  refine ⟨rfl, ?_⟩
  exact create_model_and_transforms_spec envW "vit-b-32" none "fp32" "cpu" false false false
    none false true none none _ _ _ rfl

/-- Counterexample for C7 as stated: the caller-supplied empty tuple is
"given" but falsy, so Python's `or` silently replaces it with the model's
statistics: the transforms are not built from the supplied mean and std. -/
theorem transforms_caller_mean_counterexample :
    createModelAndTransforms envW "vit-b-32" none "fp32" "cpu" false false false none false true
        (some []) (some []) =
      .ok (modelWFin,
        image_transform 224 true (some OPENAI_DATASET_MEAN) (some OPENAI_DATASET_STD),
        image_transform 224 false (some OPENAI_DATASET_MEAN) (some OPENAI_DATASET_STD)) ∧
    some OPENAI_DATASET_MEAN ≠ (some [] : Option (List Rat)) := by
  refine ⟨rfl, ?_⟩
  simp [OPENAI_DATASET_MEAN]

theorem prepareStep1_name_of_none (env : Env) (n : String) (b : Bool) (c0 : ModelCfg)
    (evs : List Event) (mn2 : String) (cfg1 : ModelCfg)
    (h : prepareStep1 env n b c0 = (evs, .ok (mn2, cfg1, none))) : mn2 = n := by
  unfold prepareStep1 at h
  split at h
  · split at h
    · simp_all
    · split at h
      · split at h <;> simp_all
      · simp_all
  · simp_all

theorem load_and_prepare_name_of_none (env : Env) (n : String) (fq : Bool)
    (fpd : Option Rat) (pi fct phf : Bool) (pes : List Event) (mn2 : String)
    (cfg : ModelCfg) (ct : Bool)
    (h : load_and_prepare_cfg env n fq fpd pi fct phf = (pes, .ok (mn2, cfg, ct, none))) :
    mn2 = n := by
  unfold load_and_prepare_cfg at h
  split at h
  · simp_all
  · split at h
    · simp_all
    · rename_i heq
      simp only [Prod.mk.injEq, Except.ok.injEq] at h
      obtain ⟨hevs, h1, h2, h3, h4⟩ := h
      subst h4
      exact prepareStep1_name_of_none _ _ _ _ _ _ _ (by rw [heq, h1])

theorem prepareStep1_events (env : Env) (n : String) (b : Bool) (c0 : ModelCfg) :
    ∀ e ∈ (prepareStep1 env n b c0).1, ∃ nm, e = Event.resolveCfg nm := by
  unfold prepareStep1
  split
  · split
    · simp
    · split
      · split <;> simp
      · simp
  · simp

theorem load_and_prepare_events (env : Env) (n : String) (fq : Bool) (fpd : Option Rat)
    (pi fct phf : Bool) :
    ∀ e ∈ (load_and_prepare_cfg env n fq fpd pi fct phf).1,
      ∃ nm, e = Event.resolveCfg nm := by
  unfold load_and_prepare_cfg
  split
  · simp
  · split <;> rename_i heq
    · intro e he
      have := prepareStep1_events env n _ _ e (by rw [heq]; exact he)
      exact this
    · intro e he
      have := prepareStep1_events env n _ _ e (by rw [heq]; exact he)
      exact this

theorem createModel_trace_shape (env : Env) (model_name : String) (pretrained : Option String)
    (precision device : String) (jit fq fct : Bool) (fpd : Option Rat) (pi phf : Bool)
    (pes : List Event) (mn2 : String) (cfg : ModelCfg) (ct : Bool) (wpit : Option String)
    (m : ModelObj)
    (hprep : load_and_prepare_cfg env (pyReplaceSlash model_name) fq fpd pi fct phf =
      (pes, .ok (mn2, cfg, ct, wpit)))
    (hpure : isPureOpenai pretrained (extractOpenaiTower wpit) = false)
    (hok : (createModel env model_name pretrained precision device jit fq fct fpd pi phf).2 =
      .ok m) :
    (createModel env model_name pretrained precision device jit fq fct fpd pi phf).1 =
      pes ++ (if extractOpenaiTower wpit then [Event.loadOpenai mn2] else [])
        ++ [Event.instantiate ct cfg (env.get_cast_dtype precision)]
        ++ (if (resolveCheckpointPath env mn2 (pretrainedAfterTower wpit pretrained)
              (extractOpenaiTower wpit)).isSome || extractOpenaiTower wpit then
            [Event.loadWeights
              (resolveCheckpointPath env mn2 (pretrainedAfterTower wpit pretrained)
                (extractOpenaiTower wpit))
              wpit (extractOpenaiTower wpit)]
          else [])
        ++ [Event.toDevice device] ++ castEvents precision
        ++ (if jit then [Event.jitWrap] else []) := by
  unfold createModel at hok ⊢
  simp only [hprep] at hok ⊢
  simp only [hpure, Bool.or_false, Bool.false_eq_true, if_false] at hok ⊢
  cases hex : extractOpenaiTower wpit <;>
    simp only [hex, Bool.true_or, Bool.false_or, Bool.or_true, Bool.or_false,
      Bool.true_eq_false, Bool.false_eq_true, if_true, if_false, Option.isSome_some,
      Option.isSome_none] at hok ⊢
  · cases hcp : resolveCheckpointPath env mn2 (pretrainedAfterTower wpit pretrained) false <;>
      simp only [hcp, Option.isSome_some, Option.isSome_none, Bool.false_or, Bool.true_or,
        Bool.false_eq_true, if_true, if_false] at hok ⊢
    · cases hot : optStrTruthy (pretrainedAfterTower wpit pretrained) <;>
        simp only [hot, Bool.false_eq_true, Bool.true_eq_false, if_true, if_false] at hok ⊢
      exact absurd hok (by simp)
    · rename_i cp
      cases hlc : load_checkpoint env (env.construct ct cfg (env.get_cast_dtype precision))
          (some cp) true wpit none with
      | error e =>
        rw [hlc] at hok
        simp at hok
      | ok p =>
        obtain ⟨m1, r⟩ := p
        simp [List.append_assoc]
  · cases hlc : load_checkpoint env (env.construct ct cfg (env.get_cast_dtype precision))
        (resolveCheckpointPath env mn2 (pretrainedAfterTower wpit pretrained) true) true wpit
        (some (env.load_openai_model mn2 precision device jit).visual) with
    | error e =>
      rw [hlc] at hok
      simp at hok
    | ok p =>
      obtain ⟨m1, r⟩ := p
      simp [List.append_assoc]

theorem castLp_not_in_prefix_parts (pes : List Event)
    (hpes : ∀ e ∈ pes, ∃ nm, e = Event.resolveCfg nm) (E b : Bool) (mn2 : String)
    (ct : Bool) (cfg : ModelCfg) (cd : Option LpDtype) (cp wp : Option String) (ts : Bool)
    (d : LpDtype) :
    Event.castLp d ∉ pes ++ (if E then [Event.loadOpenai mn2] else [])
      ++ [Event.instantiate ct cfg cd] ++ (if b then [Event.loadWeights cp wp ts] else []) := by
  intro hmem
  simp only [List.mem_append, List.mem_singleton] at hmem
  rcases hmem with ((h | h) | h) | h
  · obtain ⟨nm, hnm⟩ := hpes _ h
    simp at hnm
  · cases E <;> simp_all
  · simp_all
  · cases b <;> simp_all

/-- C2: in every successful `create_model` call off the pure-OpenAI path, the
event trace is exactly: the config resolutions, then (for an extracted OpenAI
image tower) the OpenAI load, then the network instantiation, then the weight
loading when requested, then the move to the device, then the low-precision
cast when requested, and finally the jit wrap when `jit` is set. -/
theorem create_model_step_order (env : Env) (model_name : String) (pretrained : Option String)
    (precision device : String) (jit fq fct : Bool) (fpd : Option Rat) (pi phf : Bool)
    (pes : List Event) (mn2 : String) (cfg : ModelCfg) (ct : Bool) (wpit : Option String)
    (m : ModelObj)
    (hprep : load_and_prepare_cfg env (pyReplaceSlash model_name) fq fpd pi fct phf =
      (pes, .ok (mn2, cfg, ct, wpit)))
    (hpure : isPureOpenai pretrained (extractOpenaiTower wpit) = false)
    (hok : (createModel env model_name pretrained precision device jit fq fct fpd pi phf).2 =
      .ok m) :
    (createModel env model_name pretrained precision device jit fq fct fpd pi phf).1 =
      pes ++ (if extractOpenaiTower wpit then [Event.loadOpenai mn2] else [])
        ++ [Event.instantiate ct cfg (env.get_cast_dtype precision)]
        ++ (if (resolveCheckpointPath env mn2 (pretrainedAfterTower wpit pretrained)
              (extractOpenaiTower wpit)).isSome || extractOpenaiTower wpit then
            [Event.loadWeights
              (resolveCheckpointPath env mn2 (pretrainedAfterTower wpit pretrained)
                (extractOpenaiTower wpit))
              wpit (extractOpenaiTower wpit)]
          else [])
        ++ [Event.toDevice device] ++ castEvents precision
        ++ (if jit then [Event.jitWrap] else []) :=
  createModel_trace_shape env model_name pretrained precision device jit fq fct fpd pi phf
    pes mn2 cfg ct wpit m hprep hpure hok

/-- Witness for C2: a successful run that exercises the checkpoint-loading
step (registered tag `laion`) and the jit wrap, with a slash in the name. -/
theorem create_model_step_order_case :
    load_and_prepare_cfg envLoad (pyReplaceSlash "vit-b/32") false none false false true =
      ([Event.resolveCfg "vit-b-32"], .ok ("vit-b-32", cfgA, false, none)) ∧
    isPureOpenai (some "laion") (extractOpenaiTower none) = false ∧
    (createModel envLoad "vit-b/32" (some "laion") "fp32" "cpu" true false false none
      false true).2 = .ok modelWFin ∧
    (createModel envLoad "vit-b/32" (some "laion") "fp32" "cpu" true false false none
        false true).1 =
      [Event.resolveCfg "vit-b-32"] ++ [] ++ [Event.instantiate false cfgA none]
        ++ [Event.loadWeights (some "ckpt.pt") none false] ++ [Event.toDevice "cpu"] ++ []
        ++ [Event.jitWrap] := by
  refine ⟨rfl, rfl, rfl, ?_⟩
  exact create_model_step_order envLoad "vit-b/32" (some "laion") "fp32" "cpu" true false false
    none false true [Event.resolveCfg "vit-b-32"] "vit-b-32" cfgA false none modelWFin
    rfl rfl rfl

theorem castLp_not_in_trace (pes : List Event)
    (hpes : ∀ e ∈ pes, ∃ nm, e = Event.resolveCfg nm) (E b j : Bool) (mn2 : String)
    (ct : Bool) (cfg : ModelCfg) (cd : Option LpDtype) (cp wp : Option String) (ts : Bool)
    (dev : String) (ce : List Event) (hce : ce = []) (d : LpDtype) :
    Event.castLp d ∉ pes ++ (if E then [Event.loadOpenai mn2] else [])
      ++ [Event.instantiate ct cfg cd] ++ (if b then [Event.loadWeights cp wp ts] else [])
      ++ [Event.toDevice dev] ++ ce ++ (if j then [Event.jitWrap] else []) := by
  subst hce
  cases E <;> cases b <;> cases j <;>
    (intro hmem
     simp at hmem
     obtain ⟨nm, hnm⟩ := hpes _ hmem
     simp at hnm)

/-- C6: off the pure-OpenAI path, `fp16` precision converts the weights to
float16 and `bf16` to bfloat16, immediately after (and only after) the move
to the target device; for every other precision no low-precision conversion
happens anywhere in the run. -/
theorem create_model_precision_cast (env : Env) (model_name : String)
    (pretrained : Option String) (precision device : String) (jit fq fct : Bool)
    (fpd : Option Rat) (pi phf : Bool) (pes : List Event) (mn2 : String) (cfg : ModelCfg)
    (ct : Bool) (wpit : Option String) (m : ModelObj)
    (hprep : load_and_prepare_cfg env (pyReplaceSlash model_name) fq fpd pi fct phf =
      (pes, .ok (mn2, cfg, ct, wpit)))
    (hpure : isPureOpenai pretrained (extractOpenaiTower wpit) = false)
    (hok : (createModel env model_name pretrained precision device jit fq fct fpd pi phf).2 =
      .ok m) :
    (precision = "fp16" → ∃ pre post,
      (createModel env model_name pretrained precision device jit fq fct fpd pi phf).1 =
        pre ++ [Event.toDevice device, Event.castLp LpDtype.float16] ++ post ∧
      ∀ d, Event.castLp d ∉ pre ∧ Event.castLp d ∉ post) ∧
    (precision = "bf16" → ∃ pre post,
      (createModel env model_name pretrained precision device jit fq fct fpd pi phf).1 =
        pre ++ [Event.toDevice device, Event.castLp LpDtype.bfloat16] ++ post ∧
      ∀ d, Event.castLp d ∉ pre ∧ Event.castLp d ∉ post) ∧
    (precision ≠ "fp16" → precision ≠ "bf16" → ∀ d,
      Event.castLp d ∉
        (createModel env model_name pretrained precision device jit fq fct fpd pi phf).1) := by
  have ht := createModel_trace_shape env model_name pretrained precision device jit fq fct
    fpd pi phf pes mn2 cfg ct wpit m hprep hpure hok
  have hpes : ∀ e ∈ pes, ∃ nm, e = Event.resolveCfg nm := by
    intro e he
    exact load_and_prepare_events env (pyReplaceSlash model_name) fq fpd pi fct phf e
      (by rw [hprep]; exact he)
  refine ⟨?_, ?_, ?_⟩
  · intro hp
    subst hp
    refine ⟨pes ++ (if extractOpenaiTower wpit then [Event.loadOpenai mn2] else [])
        ++ [Event.instantiate ct cfg (env.get_cast_dtype "fp16")]
        ++ (if (resolveCheckpointPath env mn2 (pretrainedAfterTower wpit pretrained)
              (extractOpenaiTower wpit)).isSome || extractOpenaiTower wpit then
            [Event.loadWeights
              (resolveCheckpointPath env mn2 (pretrainedAfterTower wpit pretrained)
                (extractOpenaiTower wpit))
              wpit (extractOpenaiTower wpit)]
          else []),
      if jit then [Event.jitWrap] else [], ?_, ?_⟩
    · rw [ht]
      have hce : castEvents "fp16" = [Event.castLp LpDtype.float16] := rfl
      rw [hce]
      simp [List.append_assoc]
    · intro d
      refine ⟨castLp_not_in_prefix_parts pes hpes _ _ mn2 ct cfg _ _ wpit _ d, ?_⟩
      cases jit <;> simp
  · intro hp
    subst hp
    refine ⟨pes ++ (if extractOpenaiTower wpit then [Event.loadOpenai mn2] else [])
        ++ [Event.instantiate ct cfg (env.get_cast_dtype "bf16")]
        ++ (if (resolveCheckpointPath env mn2 (pretrainedAfterTower wpit pretrained)
              (extractOpenaiTower wpit)).isSome || extractOpenaiTower wpit then
            [Event.loadWeights
              (resolveCheckpointPath env mn2 (pretrainedAfterTower wpit pretrained)
                (extractOpenaiTower wpit))
              wpit (extractOpenaiTower wpit)]
          else []),
      if jit then [Event.jitWrap] else [], ?_, ?_⟩
    · rw [ht]
      have hce : castEvents "bf16" = [Event.castLp LpDtype.bfloat16] := rfl
      rw [hce]
      simp [List.append_assoc]
    · intro d
      refine ⟨castLp_not_in_prefix_parts pes hpes _ _ mn2 ct cfg _ _ wpit _ d, ?_⟩
      cases jit <;> simp
  · intro h1 h2 d
    have hce : castEvents precision = [] := by
      unfold castEvents
      rw [if_neg]
      simp only [Bool.or_eq_true, beq_iff_eq]
      rintro (h | h)
      · exact h1 h
      · exact h2 h
    rw [ht]
    exact castLp_not_in_trace pes hpes _ _ _ mn2 ct cfg _ _ wpit _ device
      (castEvents precision) hce d

/-- Witness for C6: an `fp16` run on the concrete environment: the float16
cast happens right after the device move and nowhere else. -/
theorem create_model_precision_cast_case :
    load_and_prepare_cfg envW (pyReplaceSlash "vit-b-32") false none false false true =
      ([Event.resolveCfg "vit-b-32"], .ok ("vit-b-32", cfgA, false, none)) ∧
    isPureOpenai none (extractOpenaiTower none) = false ∧
    (createModel envW "vit-b-32" none "fp16" "cpu" false false false none false true).2 =
      .ok modelWFin ∧
    ∃ pre post,
      (createModel envW "vit-b-32" none "fp16" "cpu" false false false none false true).1 =
        pre ++ [Event.toDevice "cpu", Event.castLp LpDtype.float16] ++ post ∧
      ∀ d, Event.castLp d ∉ pre ∧ Event.castLp d ∉ post := by
  refine ⟨rfl, rfl, rfl, ?_⟩
  exact (create_model_precision_cast envW "vit-b-32" none "fp16" "cpu" false false false none
    false true [Event.resolveCfg "vit-b-32"] "vit-b-32" cfgA false none modelWFin
    rfl rfl rfl).1 rfl

/-- C5: when `pretrained` is a non-empty string that is not `openai` (case
insensitively), not a registered pretrained tag for the resolved model, and
not an existing filesystem path, and no pretrained image tower applies,
`create_model` raises a `RuntimeError` whose message lists the available
pretrained tags for the model; `create_model_from_pretrained` rejects the
same tag up front, before any model is constructed (its trace is empty). -/
theorem create_model_pretrained_tag_rejection (env : Env) (model_name : String)
    (pretrained : String) (precision device : String) (jit fq fct : Bool)
    (fpd : Option Rat) (pi phf : Bool) (precision2 device2 : String)
    (jit2 fq2 fct2 rt2 : Bool) (im2 istd2 : Option (List Rat))
    (pes : List Event) (mn2 : String) (cfg : ModelCfg) (ct : Bool)
    (hne : pretrained ≠ "")
    (hop : pyToLower pretrained ≠ "openai")
    (htagN : env.get_pretrained_cfg (pyReplaceSlash model_name) pretrained = none)
    (htagR : env.get_pretrained_cfg model_name pretrained = none)
    (hex : env.path_exists pretrained = false)
    (hprep : load_and_prepare_cfg env (pyReplaceSlash model_name) fq fpd pi fct phf =
      (pes, .ok (mn2, cfg, ct, none))) :
    (createModel env model_name (some pretrained) precision device jit fq fct fpd pi phf).2 =
      .error (.runtimeError (pretrainedNotFoundMsg pretrained (pyReplaceSlash model_name)
        (env.list_pretrained_tags (pyReplaceSlash model_name)))) ∧
    createModelFromPretrained env model_name pretrained precision2 device2 jit2 fq2 fct2
        rt2 im2 istd2 =
      ([], .error (.runtimeError (pretrained ++ " is not a valid pretrained cfg or checkpoint for "
        ++ model_name ++ ". Use open_clip.list_pretrained() to find one."))) := by
  have hnm : mn2 = pyReplaceSlash model_name :=
    load_and_prepare_name_of_none env (pyReplaceSlash model_name) fq fpd pi fct phf
      pes mn2 cfg ct hprep
  subst hnm
  have hemp : pretrained.isEmpty = false := by
    rw [Bool.eq_false_iff]
    intro hc
    exact hne ((String.isEmpty_iff pretrained).mp hc)
  have htr : optStrTruthy (some pretrained) = true := by
    simp [optStrTruthy, hemp]
  have hpure : isPureOpenai (some pretrained) false = false := by
    simp [isPureOpenai, beq_eq_false_iff_ne.mpr hop]
  have hcp : resolveCheckpointPath env (pyReplaceSlash model_name) (some pretrained) false =
      none := by
    unfold resolveCheckpointPath
    simp [htr, htagN, hex]
  constructor
  · unfold createModel
    simp only [hprep]
    simp only [extractOpenaiTower, hpure, Bool.or_false, Bool.false_eq_true, if_false,
      pretrainedAfterTower]
    simp only [hcp, Option.isSome_none, Bool.or_false, Bool.false_eq_true, if_false, htr,
      if_true, Option.getD_some]
  · unfold createModelFromPretrained
    simp [is_pretrained_cfg, htagR, hex]

/-- Witness for C5: the unknown tag `laion400m` on the concrete environment
(no registered tags, no existing paths). -/
theorem create_model_pretrained_tag_rejection_case :
    ("laion400m" : String) ≠ "" ∧
    pyToLower "laion400m" ≠ "openai" ∧
    envW.get_pretrained_cfg (pyReplaceSlash "vit-b-32") "laion400m" = none ∧
    envW.get_pretrained_cfg "vit-b-32" "laion400m" = none ∧
    envW.path_exists "laion400m" = false ∧
    load_and_prepare_cfg envW (pyReplaceSlash "vit-b-32") false none false false true =
      ([Event.resolveCfg "vit-b-32"], .ok ("vit-b-32", cfgA, false, none)) ∧
    (createModel envW "vit-b-32" (some "laion400m") "fp32" "cpu" false false false none
        false true).2 =
      .error (.runtimeError (pretrainedNotFoundMsg "laion400m" "vit-b-32"
        (envW.list_pretrained_tags "vit-b-32"))) ∧
    createModelFromPretrained envW "vit-b-32" "laion400m" "fp32" "cpu" false false false
        true none none =
      ([], .error (.runtimeError
        "laion400m is not a valid pretrained cfg or checkpoint for vit-b-32. Use open_clip.list_pretrained() to find one.")) := by
  refine ⟨by decide, by decide, rfl, rfl, rfl, rfl, ?_⟩
  exact create_model_pretrained_tag_rejection envW "vit-b-32" "laion400m" "fp32" "cpu"
    false false false none false true "fp32" "cpu" false false false true none none
    [Event.resolveCfg "vit-b-32"] "vit-b-32" cfgA false
    (by decide) (by decide) rfl rfl rfl rfl

/-!
### Heap lemmas for the deepcopy frame property (C8)
-/

theorem maxAddr_append (l1 l2 : Heap) : maxAddr (l1 ++ l2) = max (maxAddr l1) (maxAddr l2) := by
  induction l1 with
  | nil => simp [maxAddr]
  | cons p t ih =>
    simp only [List.cons_append, maxAddr, List.foldr_cons] at ih ⊢
    rw [ih]
    exact (Nat.max_assoc _ _ _).symm

theorem mem_addr_le_maxAddr (h : Heap) (p : Nat × HDict) (hp : p ∈ h) : p.1 ≤ maxAddr h := by
  induction h with
  | nil => cases hp
  | cons q t ih =>
    rcases List.mem_cons.mp hp with hp | hp
    · subst hp
      simp only [maxAddr, List.foldr_cons]
      exact Nat.le_max_left _ _
    · refine Nat.le_trans (ih hp) ?_
      simp only [maxAddr, List.foldr_cons]
      exact Nat.le_max_right _ _

theorem lookupH_mem (h : Heap) (a : Nat) (d : HDict) (hl : lookupH h a = some d) :
    (a, d) ∈ h := by
  unfold lookupH at hl
  cases hf : List.find? (fun p => p.1 == a) h with
  | none => rw [hf] at hl; cases hl
  | some p =>
    rw [hf] at hl
    have hmem := List.mem_of_find?_eq_some hf
    have hpa := List.find?_some hf
    simp only [beq_iff_eq] at hpa
    obtain rfl : p.2 = d := by cases hl; rfl
    obtain ⟨x, y⟩ := p
    cases hpa
    exact hmem

theorem lookupH_isSome_le_maxAddr (h : Heap) (a : Nat) (hl : (lookupH h a).isSome) :
    a ≤ maxAddr h := by
  cases hd : lookupH h a with
  | none => rw [hd] at hl; cases hl
  | some d => exact mem_addr_le_maxAddr h (a, d) (lookupH_mem h a d hd)

theorem lookupH_cons_ne (b : Nat) (d : HDict) (h : Heap) (a : Nat) (hne : b ≠ a) :
    lookupH ((b, d) :: h) a = lookupH h a := by
  unfold lookupH
  rw [List.find?_cons_of_neg]
  simp [hne]

theorem lookupH_cons_self (b : Nat) (d : HDict) (h : Heap) :
    lookupH ((b, d) :: h) b = some d := by
  unfold lookupH
  rw [List.find?_cons_of_pos] <;> simp

theorem lookupH_append_fresh (ext h : Heap) (x : Nat)
    (hfresh : ∀ p ∈ ext, maxAddr h < p.1) (hx : x ≤ maxAddr h) :
    lookupH (ext ++ h) x = lookupH h x := by
  induction ext with
  | nil => simp
  | cons p t ih =>
    obtain ⟨b, d⟩ := p
    rw [List.cons_append, lookupH_cons_ne]
    · exact ih (fun q hq => hfresh q (List.mem_cons_of_mem _ hq))
    · have := hfresh (b, d) (List.mem_cons_self _ _)
      omega

theorem heapWF_RB (h : Heap) (hwf : heapWF h) : heapRefsBounded h := by
  intro p hp rb hrb
  exact lookupH_isSome_le_maxAddr h rb (hwf.2 p hp rb hrb)

theorem mem_dictRefs (d : HDict) (rb : Nat) :
    rb ∈ dictRefs d ↔ ∃ kv ∈ d, kv.2 = EntryV.ref rb := by
  unfold dictRefs
  rw [List.mem_filterMap]
  constructor
  · rintro ⟨kv, hkv, hm⟩
    refine ⟨kv, hkv, ?_⟩
    cases hv : kv.2 with
    | leaf p => rw [hv] at hm; cases hm
    | ref a => rw [hv] at hm; cases hm; rfl
  · rintro ⟨kv, hkv, hm⟩
    exact ⟨kv, hkv, by rw [hm]⟩

theorem entryRefs_mem_dictRefs (d : HDict) (kv : String × EntryV) (hkv : kv ∈ d) (rb : Nat)
    (hrb : rb ∈ entryRefs kv.2) : rb ∈ dictRefs d := by
  rw [mem_dictRefs]
  cases hv : kv.2 with
  | leaf p =>
    rw [hv] at hrb
    simp [entryRefs] at hrb
  | ref a =>
    rw [hv] at hrb
    simp only [entryRefs, List.mem_singleton] at hrb
    subst hrb
    exact ⟨kv, hkv, hv⟩

theorem extOK_refl (h : Heap) : extOK h h := ⟨[], rfl, by simp⟩

theorem extOK_maxAddr_le (h h2 : Heap) (he : extOK h h2) : maxAddr h ≤ maxAddr h2 := by
  obtain ⟨ext, rfl, _⟩ := he
  rw [maxAddr_append]
  exact Nat.le_max_right _ _

theorem extOK_lookup (h h2 : Heap) (he : extOK h h2) (x : Nat) (hx : x ≤ maxAddr h) :
    lookupH h2 x = lookupH h x := by
  obtain ⟨ext, rfl, hext⟩ := he
  exact lookupH_append_fresh ext h x (fun p hp => (hext p hp).1) hx

theorem extOK_trans (h h1 h2 : Heap) (he1 : extOK h h1) (he2 : extOK h1 h2) : extOK h h2 := by
  have hle1 := extOK_maxAddr_le h h1 he1
  have hle2 := extOK_maxAddr_le h1 h2 he2
  obtain ⟨e1, rfl, hx1⟩ := he1
  obtain ⟨e2, rfl, hx2⟩ := he2
  refine ⟨e2 ++ e1, by rw [List.append_assoc], ?_⟩
  intro p hp
  rcases List.mem_append.mp hp with hp | hp
  · obtain ⟨ha, hr⟩ := hx2 p hp
    exact ⟨Nat.lt_of_le_of_lt hle1 ha, fun rb hrb =>
      ⟨Nat.lt_of_le_of_lt hle1 (hr rb hrb).1, (hr rb hrb).2⟩⟩
  · obtain ⟨ha, hr⟩ := hx1 p hp
    exact ⟨ha, fun rb hrb => ⟨(hr rb hrb).1, Nat.le_trans (hr rb hrb).2 hle2⟩⟩

theorem extOK_RB (h h2 : Heap) (he : extOK h h2) (hrb : heapRefsBounded h) :
    heapRefsBounded h2 := by
  have hle := extOK_maxAddr_le h h2 he
  obtain ⟨ext, rfl, hext⟩ := he
  intro p hp rb hr
  rcases List.mem_append.mp hp with hp | hp
  · exact ((hext p hp).2 rb hr).2
  · exact Nat.le_trans (hrb p hp rb hr) hle

theorem extOK_newcells (h h2 : Heap) (he : extOK h h2) :
    ∀ p ∈ h2, maxAddr h < p.1 → ∀ rb ∈ dictRefs p.2, maxAddr h < rb := by
  obtain ⟨ext, rfl, hext⟩ := he
  intro p hp ha rb hrb
  rcases List.mem_append.mp hp with hp | hp
  · exact ((hext p hp).2 rb hrb).1
  · exact absurd (mem_addr_le_maxAddr h p hp) (Nat.not_le_of_lt ha)

theorem extOK_alloc (h h1 : Heap) (d2 : HDict) (he : extOK h h1)
    (hd2 : ∀ rb ∈ dictRefs d2, maxAddr h < rb ∧ rb ≤ maxAddr h1) :
    extOK h ((freshAddr h1, d2) :: h1) := by
  have hle := extOK_maxAddr_le h h1 he
  have hmax : maxAddr ((freshAddr h1, d2) :: h1) = freshAddr h1 := by
    simp only [maxAddr, List.foldr_cons, freshAddr]
    have : List.foldr (fun (p : Nat × HDict) m => max p.1 m) 0 h1 = maxAddr h1 := rfl
    rw [this]
    omega
  obtain ⟨ext, rfl, hext⟩ := he
  refine ⟨(freshAddr (ext ++ h), d2) :: ext, rfl, ?_⟩
  intro p hp
  rcases List.mem_cons.mp hp with hp | hp
  · subst hp
    constructor
    · simp only [freshAddr]
      omega
    · intro rb hrb
      refine ⟨(hd2 rb hrb).1, ?_⟩
      rw [hmax]
      exact Nat.le_trans (hd2 rb hrb).2 (by simp [freshAddr])
  · obtain ⟨ha, hr⟩ := hext p hp
    refine ⟨ha, fun rb hrb => ⟨(hr rb hrb).1, ?_⟩⟩
    refine Nat.le_trans ((hr rb hrb).2) ?_
    rw [hmax]
    simp [freshAddr]

theorem dictRefs_cons (k : String) (v : EntryV) (d : HDict) :
    dictRefs ((k, v) :: d) = entryRefs v ++ dictRefs d := by
  cases v <;> simp [dictRefs, entryRefs]

theorem dcDictAux_extOK (f : Heap → EntryV → Heap × Option EntryV)
    (hf : ∀ h v h' r, f h v = (h', r) → extOK h h' ∧
      ∀ v2, r = some v2 → ∀ rb ∈ entryRefs v2, maxAddr h < rb ∧ rb ≤ maxAddr h') :
    ∀ (d : HDict) (h h' : Heap) (r : Option HDict), dcDictAux f h d = (h', r) →
      extOK h h' ∧
        ∀ d2, r = some d2 → ∀ rb ∈ dictRefs d2, maxAddr h < rb ∧ rb ≤ maxAddr h' := by
  intro d
  induction d with
  | nil =>
    intro h h' r hd
    unfold dcDictAux at hd
    cases hd
    refine ⟨extOK_refl h, ?_⟩
    rintro d2 hd2 rb hrb
    cases hd2
    simp [dictRefs] at hrb
  | cons kv rest ih =>
    intro h h' r hd
    unfold dcDictAux at hd
    cases hfe : f h kv.2 with
    | mk h1 r1 =>
      rw [hfe] at hd
      obtain ⟨he1, hv1⟩ := hf h kv.2 h1 r1 hfe
      cases r1 with
      | none =>
        cases hd
        refine ⟨he1, ?_⟩
        rintro d2 hd2
        cases hd2
      | some v2 =>
        simp only [] at hd
        cases hrest : dcDictAux f h1 rest with
        | mk h2 r2 =>
          rw [hrest] at hd
          obtain ⟨he2, hr2⟩ := ih h1 h2 r2 hrest
          have hle01 := extOK_maxAddr_le h h1 he1
          have hle12 := extOK_maxAddr_le h1 h2 he2
          cases r2 with
          | none =>
            cases hd
            refine ⟨extOK_trans _ _ _ he1 he2, ?_⟩
            rintro d2 hd2
            cases hd2
          | some r2x =>
            cases hd
            refine ⟨extOK_trans _ _ _ he1 he2, ?_⟩
            rintro d2 hd2 rb hrb
            cases hd2
            rw [dictRefs_cons] at hrb
            rcases List.mem_append.mp hrb with hrb | hrb
            · obtain ⟨hlo, hhi⟩ := hv1 v2 rfl rb hrb
              exact ⟨hlo, Nat.le_trans hhi hle12⟩
            · obtain ⟨hlo, hhi⟩ := hr2 r2x rfl rb hrb
              exact ⟨Nat.lt_of_le_of_lt hle01 hlo, hhi⟩

theorem maxAddr_cons (b : Nat) (d : HDict) (h : Heap) :
    maxAddr ((b, d) :: h) = max b (maxAddr h) := rfl

theorem dcEntry_extOK : ∀ (fuel : Nat) (h : Heap) (v : EntryV) (h' : Heap) (r : Option EntryV),
    dcEntry fuel h v = (h', r) → extOK h h' ∧
      ∀ v2, r = some v2 → ∀ rb ∈ entryRefs v2, maxAddr h < rb ∧ rb ≤ maxAddr h' := by
  intro fuel
  induction fuel with
  | zero =>
    intro h v h' r hd
    cases v with
    | leaf p =>
      unfold dcEntry at hd
      cases hd
      refine ⟨extOK_refl h, ?_⟩
      rintro v2 hv2 rb hrb
      cases hv2
      simp [entryRefs] at hrb
    | ref a =>
      unfold dcEntry at hd
      cases hd
      refine ⟨extOK_refl h, ?_⟩
      rintro v2 hv2
      cases hv2
  | succ n ih =>
    intro h v h' r hd
    cases v with
    | leaf p =>
      unfold dcEntry at hd
      cases hd
      refine ⟨extOK_refl h, ?_⟩
      rintro v2 hv2 rb hrb
      cases hv2
      simp [entryRefs] at hrb
    | ref a =>
      unfold dcEntry at hd
      cases hl : lookupH h a with
      | none =>
        rw [hl] at hd
        cases hd
        refine ⟨extOK_refl h, ?_⟩
        rintro v2 hv2
        cases hv2
      | some d =>
        rw [hl] at hd
        simp only [] at hd
        cases hdc : dcDictAux (dcEntry n) h d with
        | mk h1 r1 =>
          rw [hdc] at hd
          obtain ⟨he1, hrefs⟩ :=
            dcDictAux_extOK (dcEntry n) (fun h v h' r hx => ih h v h' r hx) d h h1 r1 hdc
          cases r1 with
          | none =>
            cases hd
            refine ⟨he1, ?_⟩
            rintro v2 hv2
            cases hv2
          | some d2 =>
            simp only [] at hd
            cases hd
            have hd2 := hrefs d2 rfl
            refine ⟨extOK_alloc h h1 d2 he1 hd2, ?_⟩
            rintro v2 hv2 rb hrb
            cases hv2
            simp only [entryRefs, List.mem_singleton] at hrb
            subst hrb
            have hle01 := extOK_maxAddr_le h h1 he1
            constructor
            · simp only [freshAddr]
              omega
            · rw [maxAddr_cons]
              exact Nat.le_max_left _ _

theorem readDictAux_congr (f g : EntryV → Option JTree) (d : HDict)
    (hfg : ∀ kv ∈ d, f kv.2 = g kv.2) : readDictAux f d = readDictAux g d := by
  induction d with
  | nil => rfl
  | cons kv rest ih =>
    unfold readDictAux
    rw [hfg kv (List.mem_cons_self _ _), ih (fun q hq => hfg q (List.mem_cons_of_mem _ hq))]

theorem readDictAux_cons_eq (f g : EntryV → Option JTree) (k : String) (v w : EntryV)
    (d e : HDict) (hv : f v = g w) (hd : readDictAux f d = readDictAux g e) :
    readDictAux f ((k, v) :: d) = readDictAux g ((k, w) :: e) := by
  unfold readDictAux
  rw [hv, hd]

theorem readEntry_ext (B : Nat) : ∀ (fuel : Nat) (H1 H2 : Heap) (v : EntryV),
    (∀ x, x ≤ B → lookupH H2 x = lookupH H1 x) →
    (∀ p ∈ H1, ∀ rb ∈ dictRefs p.2, rb ≤ B) →
    (∀ rb ∈ entryRefs v, rb ≤ B) →
    readEntry fuel H2 v = readEntry fuel H1 v := by
  intro fuel
  induction fuel with
  | zero =>
    intro H1 H2 v hB hRB hv
    cases v <;> rfl
  | succ n ih =>
    intro H1 H2 v hB hRB hv
    cases v with
    | leaf p => rfl
    | ref a =>
      have ha : a ≤ B := hv a (by simp [entryRefs])
      unfold readEntry
      rw [hB a ha]
      cases hl : lookupH H1 a with
      | none => rfl
      | some d =>
        have hd : (a, d) ∈ H1 := lookupH_mem H1 a d hl
        have hcongr : readDictAux (readEntry n H2) d = readDictAux (readEntry n H1) d := by
          apply readDictAux_congr
          intro kv hkv
          exact ih H1 H2 kv.2 hB hRB
            (fun rb hrb => hRB (a, d) hd rb (entryRefs_mem_dictRefs d kv hkv rb hrb))
        show (match readDictAux (readEntry n H2) d with
            | none => none
            | some ts => some (JTree.node ts)) =
          (match readDictAux (readEntry n H1) d with
            | none => none
            | some ts => some (JTree.node ts))
        rw [hcongr]

theorem dcEntry_read_eq : ∀ (fuel : Nat),
    (∀ (h : Heap) (v : EntryV) (h' : Heap) (v2 : EntryV),
      heapRefsBounded h → (∀ rb ∈ entryRefs v, rb ≤ maxAddr h) →
      dcEntry fuel h v = (h', some v2) → readEntry fuel h' v2 = readEntry fuel h v) ∧
    (∀ (d : HDict) (h h' : Heap) (d2 : HDict),
      heapRefsBounded h → (∀ rb ∈ dictRefs d, rb ≤ maxAddr h) →
      dcDictAux (dcEntry fuel) h d = (h', some d2) →
      readDictAux (readEntry fuel h') d2 = readDictAux (readEntry fuel h) d) := by
  intro fuel
  induction fuel with
  | zero =>
    constructor
    · intro h v h' v2 hRB hv hd
      cases v with
      | leaf p =>
        unfold dcEntry at hd
        cases hd
        rfl
      | ref a =>
        unfold dcEntry at hd
        cases hd
    · intro d
      induction d with
      | nil =>
        intro h h' d2 hRB hrefs hd
        unfold dcDictAux at hd
        cases hd
        rfl
      | cons kv rest ih =>
        intro h h' d2 hRB hrefs hd
        unfold dcDictAux at hd
        cases hkv : kv.2 with
        | leaf p =>
          rw [hkv] at hd
          unfold dcEntry at hd
          simp only [] at hd
          cases hrest : dcDictAux (dcEntry 0) h rest with
          | mk h2 r2 =>
            rw [hrest] at hd
            cases r2 with
            | none => cases hd
            | some r2x =>
              cases hd
              have hrec := ih h _ r2x hRB
                (fun rb hrb => hrefs rb (by rw [dictRefs_cons, hkv]; simpa [entryRefs])) hrest
              exact readDictAux_cons_eq _ _ kv.1 (.leaf p) kv.2 r2x rest
                (by rw [hkv]; rfl) hrec
        | ref a =>
          rw [hkv] at hd
          unfold dcEntry at hd
          cases hd
  | succ n ihn =>
    have ihe := ihn.1
    have ihd := ihn.2
    have hentry : ∀ (h : Heap) (v : EntryV) (h' : Heap) (v2 : EntryV),
        heapRefsBounded h → (∀ rb ∈ entryRefs v, rb ≤ maxAddr h) →
        dcEntry (n + 1) h v = (h', some v2) →
        readEntry (n + 1) h' v2 = readEntry (n + 1) h v := by
      intro h v h' v2 hRB hv hd
      cases v with
      | leaf p =>
        unfold dcEntry at hd
        cases hd
        rfl
      | ref a =>
        unfold dcEntry at hd
        cases hl : lookupH h a with
        | none =>
          rw [hl] at hd
          cases hd
        | some d =>
          rw [hl] at hd
          simp only [] at hd
          cases hdc : dcDictAux (dcEntry n) h d with
          | mk h1 r1 =>
            rw [hdc] at hd
            cases r1 with
            | none => cases hd
            | some d2 =>
              simp only [] at hd
              cases hd
              have hmemd : (a, d) ∈ h := lookupH_mem h a d hl
              have hdrefs : ∀ rb ∈ dictRefs d, rb ≤ maxAddr h :=
                fun rb hrb => hRB (a, d) hmemd rb hrb
              obtain ⟨he1, hrefs1⟩ := dcDictAux_extOK (dcEntry n)
                (fun hx vx hx2 rx hxe => dcEntry_extOK n hx vx hx2 rx hxe) d h h1
                (some d2) hdc
              have hd2refs := hrefs1 d2 rfl
              have hRB1 : heapRefsBounded h1 := extOK_RB h h1 he1 hRB
              -- the copied dict reads the same in h1 as the original in h
              have hread1 : readDictAux (readEntry n h1) d2 =
                  readDictAux (readEntry n h) d := ihd d h h1 d2 hRB hdrefs hdc
              -- adding the fresh cell does not change reads of d2
              have hread2 : readDictAux (readEntry n ((freshAddr h1, d2) :: h1)) d2 =
                  readDictAux (readEntry n h1) d2 := by
                apply readDictAux_congr
                intro kv hkv
                apply readEntry_ext (maxAddr h1) n h1 _ kv.2
                · intro x hx
                  apply lookupH_cons_ne
                  simp only [freshAddr]
                  omega
                · exact hRB1
                · intro rb hrb
                  exact (hd2refs rb (entryRefs_mem_dictRefs d2 kv hkv rb hrb)).2
              show readEntry (n + 1) ((freshAddr h1, d2) :: h1) (.ref (freshAddr h1)) =
                readEntry (n + 1) h (.ref a)
              unfold readEntry
              rw [lookupH_cons_self, hl]
              show (match readDictAux (readEntry n ((freshAddr h1, d2) :: h1)) d2 with
                  | none => none
                  | some ts => some (JTree.node ts)) =
                (match readDictAux (readEntry n h) d with
                  | none => none
                  | some ts => some (JTree.node ts))
              rw [hread2, hread1]
    constructor
    · exact hentry
    · intro d
      induction d with
      | nil =>
        intro h h' d2 hRB hrefs hd
        unfold dcDictAux at hd
        cases hd
        rfl
      | cons kv rest ih =>
        intro h h' d2 hRB hrefs hd
        unfold dcDictAux at hd
        cases hfe : dcEntry (n + 1) h kv.2 with
        | mk h1 r1 =>
          rw [hfe] at hd
          cases r1 with
          | none => cases hd
          | some v2 =>
            simp only [] at hd
            cases hrest : dcDictAux (dcEntry (n + 1)) h1 rest with
            | mk h2 r2 =>
              rw [hrest] at hd
              cases r2 with
              | none => cases hd
              | some r2x =>
                cases hd
                have hkvrefs : ∀ rb ∈ entryRefs kv.2, rb ≤ maxAddr h :=
                  fun rb hrb => hrefs rb (by rw [dictRefs_cons]; exact List.mem_append_left _ hrb)
                have hrestrefs : ∀ rb ∈ dictRefs rest, rb ≤ maxAddr h :=
                  fun rb hrb => hrefs rb (by rw [dictRefs_cons]; exact List.mem_append_right _ hrb)
                obtain ⟨he1, hv1⟩ := dcEntry_extOK (n + 1) h kv.2 h1 (some v2) hfe
                obtain ⟨he2, hr2⟩ := dcDictAux_extOK (dcEntry (n + 1))
                  (fun hx vx hx2 rx hxe => dcEntry_extOK (n + 1) hx vx hx2 rx hxe)
                  rest h1 _ (some r2x) hrest
                have hle01 := extOK_maxAddr_le h h1 he1
                have hRB1 : heapRefsBounded h1 := extOK_RB h h1 he1 hRB
                -- head entry: copy reads equal in h1, then unchanged when rest is copied
                have hv2refs := hv1 v2 rfl
                have hhead1 : readEntry (n + 1) h1 v2 = readEntry (n + 1) h kv.2 :=
                  hentry h kv.2 h1 v2 hRB hkvrefs hfe
                have hhead2 : readEntry (n + 1) _ v2 = readEntry (n + 1) h1 v2 :=
                  readEntry_ext (maxAddr h1) (n + 1) h1 _ v2
                    (fun x hx => extOK_lookup h1 _ he2 x hx) hRB1
                    (fun rb hrb => (hv2refs rb hrb).2)
                -- rest: copies read equal in h2, and the originals read the same in
                -- h1 as in h
                have hrest1 : readDictAux (readEntry (n + 1) _) r2x =
                    readDictAux (readEntry (n + 1) h1) rest :=
                  ih h1 _ r2x hRB1
                    (fun rb hrb => Nat.le_trans (hrestrefs rb hrb) hle01) hrest
                have hrest2 : readDictAux (readEntry (n + 1) h1) rest =
                    readDictAux (readEntry (n + 1) h) rest := by
                  apply readDictAux_congr
                  intro q hq
                  exact readEntry_ext (maxAddr h) (n + 1) h h1 q.2
                    (fun x hx => extOK_lookup h h1 he1 x hx) hRB
                    (fun rb hrb => hrestrefs rb (entryRefs_mem_dictRefs rest q hq rb hrb))
                exact readDictAux_cons_eq _ _ kv.1 v2 kv.2 r2x rest
                  (hhead2.trans hhead1) (hrest1.trans hrest2)

theorem reach_fresh (B : Nat) : ∀ (g : Nat) (H : Heap) (root : Nat),
    B < root → (∀ p ∈ H, B < p.1 → ∀ rb ∈ dictRefs p.2, B < rb) →
    ∀ x ∈ reachAddrs g H root, B < x := by
  intro g
  induction g with
  | zero =>
    intro H root hr _ x hx
    unfold reachAddrs at hx
    rcases List.mem_singleton.mp hx with rfl
    exact hr
  | succ n ihg =>
    intro H root hr hnew x hx
    unfold reachAddrs at hx
    rcases List.mem_cons.mp hx with rfl | hx
    · exact hr
    · cases hl : lookupH H root with
      | none =>
        rw [hl] at hx
        simp at hx
      | some d =>
        rw [hl] at hx
        rw [List.mem_flatMap] at hx
        obtain ⟨rb, hrb, hxr⟩ := hx
        have hrb2 : B < rb := hnew (root, d) (lookupH_mem H root d hl) hr rb hrb
        exact ihg H rb hrb2 hnew x hxr

theorem maxAddr_map_fst (h : Heap) (f : Nat × HDict → Nat × HDict)
    (hf : ∀ p, (f p).1 = p.1) : maxAddr (h.map f) = maxAddr h := by
  induction h with
  | nil => rfl
  | cons p t ih =>
    show max (f p).1 (maxAddr (t.map f)) = max p.1 (maxAddr t)
    rw [hf p, ih]

theorem maxAddr_applyMut (h : Heap) (op : MutOp) : maxAddr (applyMut h op) = maxAddr h := by
  cases op with
  | setKey a k v =>
    apply maxAddr_map_fst
    intro p
    by_cases hp : p.1 == a <;> simp [hp]
  | popKey a k =>
    apply maxAddr_map_fst
    intro p
    by_cases hp : p.1 == a <;> simp [hp]

theorem lookupH_cons_self2 (q : Nat × HDict) (h : Heap) : lookupH (q :: h) q.1 = some q.2 := by
  obtain ⟨b, d⟩ := q
  exact lookupH_cons_self b d h

theorem lookupH_cons_ne2 (q : Nat × HDict) (h : Heap) (x : Nat) (hne : q.1 ≠ x) :
    lookupH (q :: h) x = lookupH h x := by
  obtain ⟨b, d⟩ := q
  exact lookupH_cons_ne b d h x hne

theorem lookupH_map_fst_ne (h : Heap) (f : Nat × HDict → Nat × HDict)
    (hf : ∀ p, (f p).1 = p.1) (x : Nat) (hfx : ∀ p ∈ h, p.1 = x → f p = p) :
    lookupH (h.map f) x = lookupH h x := by
  induction h with
  | nil => rfl
  | cons p t ih =>
    by_cases hp : p.1 = x
    · have hfp : f p = p := hfx p (List.mem_cons_self _ _) hp
      show lookupH (f p :: t.map f) x = lookupH (p :: t) x
      rw [hfp]
      subst hp
      rw [lookupH_cons_self2, lookupH_cons_self2]
    · show lookupH (f p :: t.map f) x = lookupH (p :: t) x
      rw [lookupH_cons_ne2 (f p) _ x (by rw [hf p]; exact hp), lookupH_cons_ne2 p _ x hp]
      exact ih (fun q hq => hfx q (List.mem_cons_of_mem _ hq))

theorem lookupH_applyMut_ne (h : Heap) (op : MutOp) (x : Nat) (hne : mutAddr op ≠ x) :
    lookupH (applyMut h op) x = lookupH h x := by
  cases op with
  | setKey a k v =>
    apply lookupH_map_fst_ne
    · intro p
      by_cases hp : p.1 == a <;> simp [hp]
    · intro p _ hpx
      have : (p.1 == a) = false := by
        simp only [mutAddr] at hne
        rw [beq_eq_false_iff_ne]
        rw [hpx]
        exact fun hc => hne hc.symm
      simp [this]
  | popKey a k =>
    apply lookupH_map_fst_ne
    · intro p
      by_cases hp : p.1 == a <;> simp [hp]
    · intro p _ hpx
      have : (p.1 == a) = false := by
        simp only [mutAddr] at hne
        rw [beq_eq_false_iff_ne]
        rw [hpx]
        exact fun hc => hne hc.symm
      simp [this]

theorem dictRefs_append (d e : HDict) : dictRefs (d ++ e) = dictRefs d ++ dictRefs e :=
  List.filterMap_append _ _ _

theorem dictRefs_pyDictInsertE (d : HDict) (k : String) (v : EntryV) (rb : Nat)
    (hrb : rb ∈ dictRefs (applyMut.pyDictInsertE d k v)) :
    rb ∈ dictRefs d ∨ rb ∈ entryRefs v := by
  unfold applyMut.pyDictInsertE at hrb
  by_cases hc : d.any (fun kv => kv.1 == k)
  · rw [if_pos hc] at hrb
    obtain ⟨kv, hkv, hv⟩ := (mem_dictRefs _ _).mp hrb
    obtain ⟨q, hq, hfq⟩ := List.mem_map.mp hkv
    by_cases hqk : q.1 == k
    · rw [if_pos hqk] at hfq
      subst hfq
      right
      simp only at hv
      rw [hv]
      simp [entryRefs]
    · rw [if_neg hqk] at hfq
      subst hfq
      left
      exact (mem_dictRefs _ _).mpr ⟨q, hq, hv⟩
  · rw [if_neg hc, dictRefs_append] at hrb
    rcases List.mem_append.mp hrb with hrb | hrb
    · exact Or.inl hrb
    · right
      obtain ⟨kv, hkv, hv⟩ := (mem_dictRefs _ _).mp hrb
      rcases List.mem_singleton.mp hkv with rfl
      simp only at hv
      rw [hv]
      simp [entryRefs]

theorem dictRefs_filter (f : String × EntryV → Bool) (d : HDict) (rb : Nat)
    (hrb : rb ∈ dictRefs (d.filter f)) : rb ∈ dictRefs d := by
  obtain ⟨kv, hkv, hv⟩ := (mem_dictRefs _ _).mp hrb
  exact (mem_dictRefs _ _).mpr ⟨kv, (List.mem_filter.mp hkv).1, hv⟩

theorem heapRB_applyMut (h : Heap) (op : MutOp) (hrb : heapRefsBounded h)
    (hops : ∀ r ∈ mutRefs op, r ≤ maxAddr h) : heapRefsBounded (applyMut h op) := by
  intro p hp rb hr
  rw [maxAddr_applyMut]
  cases op with
  | setKey a k v =>
    obtain ⟨q, hq, hfq⟩ := List.mem_map.mp hp
    by_cases hqa : q.1 == a
    · rw [if_pos hqa] at hfq
      subst hfq
      rcases dictRefs_pyDictInsertE q.2 k v rb hr with hx | hx
      · exact hrb q hq rb hx
      · apply hops
        cases v with
        | leaf pp => simp [entryRefs] at hx
        | ref r =>
          simp only [entryRefs, List.mem_singleton] at hx
          subst hx
          simp [mutRefs]
    · rw [if_neg hqa] at hfq
      subst hfq
      exact hrb q hq rb hr
  | popKey a k =>
    obtain ⟨q, hq, hfq⟩ := List.mem_map.mp hp
    by_cases hqa : q.1 == a
    · rw [if_pos hqa] at hfq
      subst hfq
      exact hrb q hq rb (dictRefs_filter _ q.2 rb hr)
    · rw [if_neg hqa] at hfq
      subst hfq
      exact hrb q hq rb hr

theorem maxAddr_applyMuts (h : Heap) (ms : List MutOp) :
    maxAddr (applyMuts h ms) = maxAddr h := by
  induction ms generalizing h with
  | nil => rfl
  | cons op rest ih =>
    show maxAddr (applyMuts (applyMut h op) rest) = maxAddr h
    rw [ih, maxAddr_applyMut]

theorem lookupH_applyMuts_ne (h : Heap) (ms : List MutOp) (x : Nat)
    (hne : ∀ op ∈ ms, mutAddr op ≠ x) :
    lookupH (applyMuts h ms) x = lookupH h x := by
  induction ms generalizing h with
  | nil => rfl
  | cons op rest ih =>
    show lookupH (applyMuts (applyMut h op) rest) x = lookupH h x
    rw [ih (applyMut h op) (fun q hq => hne q (List.mem_cons_of_mem _ hq)),
      lookupH_applyMut_ne h op x (hne op (List.mem_cons_self _ _))]

theorem heapRB_applyMuts (h : Heap) (ms : List MutOp) (hrb : heapRefsBounded h)
    (hops : ∀ op ∈ ms, ∀ r ∈ mutRefs op, r ≤ maxAddr h) :
    heapRefsBounded (applyMuts h ms) := by
  induction ms generalizing h with
  | nil => exact hrb
  | cons op rest ih =>
    show heapRefsBounded (applyMuts (applyMut h op) rest)
    apply ih
    · exact heapRB_applyMut h op hrb (hops op (List.mem_cons_self _ _))
    · intro q hq r hr
      rw [maxAddr_applyMut]
      exact hops q (List.mem_cons_of_mem _ hq) r hr

theorem lookup_mem_pairs {β : Type} (l : List (String × β)) (k : String) (v : β)
    (h : List.lookup k l = some v) : (k, v) ∈ l := by
  induction l with
  | nil => cases h
  | cons p t ih =>
    unfold List.lookup at h
    split at h
    · cases h
      rename_i heq
      simp only [beq_iff_eq] at heq
      subst heq
      obtain ⟨a, b⟩ := p
      exact List.mem_cons_self _ _
    · exact List.mem_cons_of_mem _ (ih h)

theorem deepcopyAddr_inv (fuel : Nat) (h : Heap) (a : Nat) (h2 : Heap) (b : Nat)
    (hd : deepcopyAddr fuel h a = (h2, some b)) :
    dcEntry (fuel + 1) h (.ref a) = (h2, some (.ref b)) := by
  unfold deepcopyAddr at hd
  cases hdc : dcEntry (fuel + 1) h (.ref a) with
  | mk h1 r1 =>
    rw [hdc] at hd
    cases r1 with
    | none =>
      simp only [Prod.mk.injEq] at hd
      cases hd.2
    | some v =>
      cases v with
      | leaf p =>
        simp only [Prod.mk.injEq] at hd
        cases hd.2
      | ref c =>
        simp only [Prod.mk.injEq, Option.some.injEq] at hd
        obtain ⟨rfl, rfl⟩ := hd
        rfl

/-- C8: `get_model_config` returns a deep copy of the registry entry.  Every
address reachable from the copy is freshly allocated, so any sequence of
in-place dict mutations of the copy (such as the `custom_text` pop and the
overrides `load_and_prepare_cfg` performs, modelled by `MutOp`) leaves every
registered config's readable tree unchanged, and a second `get_model_config`
for the same name, after those mutations, returns a config equal (as a tree)
to the first. -/
theorem get_model_config_deepcopy_frame (fuel : Nat) (st : CfgRegistry) (name : String)
    (aReg root : Nat) (h2 : Heap) (ms : List MutOp)
    (hwf : heapWF st.heap)
    (hreg : ∀ p ∈ st.configs, (lookupH st.heap p.2).isSome)
    (hlk : List.lookup name st.configs = some aReg)
    (hget : get_model_config_h fuel st name = (h2, some root))
    (hms : ∀ op ∈ ms, mutAddr op ∈ reachAddrs fuel h2 root)
    (hbound : ∀ op ∈ ms, ∀ r ∈ mutRefs op, r ≤ maxAddr h2) :
    (∀ p ∈ st.configs, ∀ g, readTree g (applyMuts h2 ms) p.2 = readTree g st.heap p.2) ∧
    readTree fuel h2 root = readTree fuel st.heap aReg ∧
    (∀ h3 root2,
      get_model_config_h fuel { heap := applyMuts h2 ms, configs := st.configs } name =
        (h3, some root2) →
      readTree fuel h3 root2 = readTree fuel h2 root) := by
  have hRB : heapRefsBounded st.heap := heapWF_RB st.heap hwf
  have hdc : dcEntry (fuel + 1) st.heap (.ref aReg) = (h2, some (.ref root)) := by
    unfold get_model_config_h at hget
    rw [hlk] at hget
    exact deepcopyAddr_inv fuel st.heap aReg h2 root hget
  obtain ⟨hext, hroot⟩ := dcEntry_extOK (fuel + 1) st.heap (.ref aReg) h2 (some (.ref root)) hdc
  have hrootb := hroot (.ref root) rfl root (by simp [entryRefs])
  have haReg : aReg ≤ maxAddr st.heap :=
    lookupH_isSome_le_maxAddr st.heap aReg
      (hreg (name, aReg) (lookup_mem_pairs st.configs name aReg hlk))
  have hRB2 : heapRefsBounded h2 := extOK_RB st.heap h2 hext hRB
  have hfreshtargets : ∀ op ∈ ms, maxAddr st.heap < mutAddr op := by
    intro op hop
    exact reach_fresh (maxAddr st.heap) fuel h2 root hrootb.1
      (extOK_newcells st.heap h2 hext) (mutAddr op) (hms op hop)
  have hlook : ∀ x, x ≤ maxAddr st.heap →
      lookupH (applyMuts h2 ms) x = lookupH st.heap x := by
    intro x hx
    rw [lookupH_applyMuts_ne h2 ms x (fun op hop => by
      have := hfreshtargets op hop
      omega)]
    exact extOK_lookup st.heap h2 hext x hx
  have part1 : ∀ p ∈ st.configs, ∀ g,
      readTree g (applyMuts h2 ms) p.2 = readTree g st.heap p.2 := by
    intro p hp g
    unfold readTree
    apply readEntry_ext (maxAddr st.heap)
    · exact hlook
    · exact hRB
    · intro rb hrb
      simp only [entryRefs, List.mem_singleton] at hrb
      subst hrb
      exact lookupH_isSome_le_maxAddr st.heap _ (hreg p hp)
  have part2 : readTree fuel h2 root = readTree fuel st.heap aReg := by
    unfold readTree
    refine (dcEntry_read_eq (fuel + 1)).1 st.heap (.ref aReg) h2 (.ref root) hRB ?_ hdc
    intro rb hrb
    simp only [entryRefs, List.mem_singleton] at hrb
    subst hrb
    exact haReg
  refine ⟨part1, part2, ?_⟩
  intro h3 root2 hget2
  unfold get_model_config_h at hget2
  simp only at hget2
  rw [hlk] at hget2
  have hdc2 : dcEntry (fuel + 1) (applyMuts h2 ms) (.ref aReg) = (h3, some (.ref root2)) :=
    deepcopyAddr_inv fuel (applyMuts h2 ms) aReg h3 root2 hget2
  have hRBm : heapRefsBounded (applyMuts h2 ms) := heapRB_applyMuts h2 ms hRB2 hbound
  have haRegm : aReg ≤ maxAddr (applyMuts h2 ms) := by
    rw [maxAddr_applyMuts]
    exact Nat.le_trans haReg (extOK_maxAddr_le st.heap h2 hext)
  have hr3 : readTree fuel h3 root2 = readTree fuel (applyMuts h2 ms) aReg := by
    unfold readTree
    refine (dcEntry_read_eq (fuel + 1)).1 (applyMuts h2 ms) (.ref aReg) h3 (.ref root2)
      hRBm ?_ hdc2
    intro rb hrb
    simp only [entryRefs, List.mem_singleton] at hrb
    subst hrb
    exact haRegm
  rw [hr3]
  rw [part1 (name, aReg) (lookup_mem_pairs st.configs name aReg hlk) fuel]
  exact part2.symm

/-- Witness for C8: the concrete registry `regW` (config at address 1 with
nested `vision_cfg`/`text_cfg` dicts), the copy rooted at the fresh address 6,
and the `load_and_prepare_cfg`-style mutations `mutsW` (pop `custom_text`,
set `quick_gelu`, set nested `patch_dropout`). -/
theorem get_model_config_deepcopy_frame_case :
    heapWF regW.heap ∧
    (∀ p ∈ regW.configs, (lookupH regW.heap p.2).isSome) ∧
    List.lookup "vit-b-32" regW.configs = some 1 ∧
    get_model_config_h 2 regW "vit-b-32" = (heap2W, some 6) ∧
    (∀ op ∈ mutsW, mutAddr op ∈ reachAddrs 2 heap2W 6) ∧
    (∀ op ∈ mutsW, ∀ r ∈ mutRefs op, r ≤ maxAddr heap2W) ∧
    ((∀ p ∈ regW.configs, ∀ g,
        readTree g (applyMuts heap2W mutsW) p.2 = readTree g regW.heap p.2) ∧
      readTree 2 heap2W 6 = readTree 2 regW.heap 1 ∧
      (∀ h3 root2,
        get_model_config_h 2 { heap := applyMuts heap2W mutsW, configs := regW.configs }
          "vit-b-32" = (h3, some root2) →
        readTree 2 h3 root2 = readTree 2 heap2W 6)) := by
  refine ⟨by unfold heapWF; decide, by decide, rfl, rfl, by decide, by decide, ?_⟩
  exact get_model_config_deepcopy_frame 2 regW "vit-b-32" 1 6 heap2W mutsW
    (by unfold heapWF; decide) (by decide) rfl rfl (by decide) (by decide)
